import Mathlib

/-!
Verification development for the mlink-sdk action-protocol engine.

The TypeScript sources are shallowly embedded: strings are lists of Unicode
characters (`String` / `List Char`), JS numbers appearing in the validators are
modelled as `Rat`, fallible operations return `Option`/`Except`, and the React
hook's stateful `execute` flow is modelled as a pure function from its inputs
(adapter behaviour, HTTP outcome) to the final observable state plus the trace
of wallet-adapter calls.  The JS regex engine is embedded only where the source
uses it on literal patterns (`buildHref` builds `new RegExp('{'+key+'}', 'g')`,
which matches literally whenever the key has no regex metacharacters); the
user-supplied `pattern` test of `validateParameterValues` is abstracted as a
function argument.
-/

set_option maxRecDepth 4096

namespace Mlink

/-- Boolean test that `p` is a contiguous prefix of `l`. -/
def isPre : List Char → List Char → Bool
  | [], _ => true
  | _ :: _, [] => false
  | a :: p, b :: l => a == b && isPre p l

/-- Boolean test that `p` occurs as a contiguous substring of `l`
(JS `String.includes` / a regex search for a literal pattern). -/
def occursL (p : List Char) : List Char → Bool
  | [] => isPre p []
  | l@(_ :: rest) => isPre p l || occursL p rest

/-- Fuel-driven scanner behind `replaceAllL`; the fuel is always at least the
length of the list being scanned, so the exhaustion branch is never taken. -/
def replaceAllGo (pat rep : List Char) : Nat → List Char → List Char
  | _, [] => []
  | 0, l => l
  | fuel + 1, c :: rest =>
    if pat ≠ [] ∧ isPre pat (c :: rest) then
      rep ++ replaceAllGo pat rep fuel (List.drop (pat.length - 1) rest)
    else
      c :: replaceAllGo pat rep fuel rest

/-- JS `String.prototype.replace(new RegExp(pat, 'g'), rep)` for a pattern
without regex metacharacters: leftmost, non-overlapping global replacement;
the replacement text is spliced in and never rescanned. -/
def replaceAllL (pat rep : List Char) (l : List Char) : List Char :=
  replaceAllGo pat rep l.length l

/-- Splits a list at the first occurrence of `t`, returning the part before and
the part after (the separator removed). -/
def splitAtFirst (t : Char) : List Char → Option (List Char × List Char)
  | [] => none
  | c :: rest =>
    if c = t then some ([], rest)
    else
      match splitAtFirst t rest with
      | some (a, b) => some (c :: a, b)
      | none => none

/-- Characters in the set left unescaped by JS `encodeURIComponent`:
ASCII alphanumerics and `- _ . ! ~ * ' ( )`. -/
def isUriUnescaped (c : Char) : Bool :=
  ('A' ≤ c && c ≤ 'Z') || ('a' ≤ c && c ≤ 'z') || ('0' ≤ c && c ≤ '9') ||
  c == '-' || c == '_' || c == '.' || c == '!' || c == '~' || c == '*' ||
  c == '\'' || c == '(' || c == ')'

/-- Uppercase hexadecimal digit for `n < 16` (the case emitted by
`encodeURIComponent`). -/
def hexDigitChar (n : Nat) : Char :=
  "0123456789ABCDEF".toList.getD n '0'

/-- UTF-8 encoding of one character as a list of byte values. -/
def utf8Bytes (c : Char) : List Nat :=
  let n := c.toNat
  if n < 0x80 then [n]
  else if n < 0x800 then [0xC0 + n / 64, 0x80 + n % 64]
  else if n < 0x10000 then
    [0xE0 + n / 4096, 0x80 + (n / 64) % 64, 0x80 + n % 64]
  else
    [0xF0 + n / 262144, 0x80 + (n / 4096) % 64, 0x80 + (n / 64) % 64,
     0x80 + n % 64]

/-- Percent-escape of one byte, `%XX` with uppercase hex digits. -/
def pctByte (b : Nat) : List Char :=
  ['%', hexDigitChar (b / 16), hexDigitChar (b % 16)]

/-- JS `encodeURIComponent` on a character list. -/
def encodeURIComponentL (l : List Char) : List Char :=
  l.flatMap fun c =>
    if isUriUnescaped c then [c] else (utf8Bytes c).flatMap pctByte

/-- JS `encodeURIComponent`. -/
def encodeURIComponent (s : String) : String :=
  ⟨encodeURIComponentL s.toList⟩

/-- A value of TS type `string | string[]` (the value sides of
`Record<string, string | string[]>`). -/
inductive JsVal where
  | str (s : String)
  | arr (a : List String)
deriving DecidableEq

/-- JS `Array.isArray(value) ? value.join(',') : value`. -/
def joinVal : JsVal → String
  | .str s => s
  | .arr a => String.intercalate "," a

/-- The template engine `buildHref` of `builders.ts`, at the character-list
level: fold over the entries in order, each step performing the source's
`result.replace(new RegExp('{'+key+'}', 'g'), encodeURIComponent(value))`.
The replace step is embedded as the literal leftmost non-overlapping global
replacement of the token `{key}`, which is the source's behaviour exactly when
the constructed pattern denotes that literal string — the `regexSafeKey` keys,
whose characters are all plain regex characters and whose braced text is not a
quantifier shape.  For other keys the JS regex can match other text (`.`),
match nothing (a mid-pattern `$`), or make `new RegExp` throw (`(`, or a
braced quantifier such as `{100}`), so every theorem about `buildHrefL`
restricts its keys to the `regexSafeKey` domain. -/
def buildHrefL (template : List Char) (params : List (String × JsVal)) :
    List Char :=
  params.foldl
    (fun res kv =>
      replaceAllL ('{' :: (kv.1.toList ++ ['}']))
        (encodeURIComponentL (joinVal kv.2).toList) res)
    template

/-- The template engine `buildHref` of `builders.ts`. -/
def buildHref (template : String) (params : List (String × JsVal)) : String :=
  ⟨buildHrefL template.toList params⟩

/-- Fuel-driven scanner behind `extractParamsL`; each step consumes at least
one character, so fuel equal to the input length is always sufficient. -/
def extractParamsGo : Nat → List Char → List (List Char)
  | _, [] => []
  | 0, _ => []
  | fuel + 1, c :: rest =>
    if c = '{' then
      match splitAtFirst '}' rest with
      | some (name, after) =>
        if name = [] then extractParamsGo fuel rest
        else name :: extractParamsGo fuel after
      | none => extractParamsGo fuel rest
    else extractParamsGo fuel rest

/-- The placeholder scanner `extractParams` of `builders.ts`: the behaviour of
repeatedly matching the JS regex `/\{([^}]+)\}/g` — at a `{`, a match needs a
later `}` with at least one character in between; the name is everything up to
the first such `}`, and scanning resumes after it. -/
def extractParamsL (l : List Char) : List (List Char) :=
  extractParamsGo l.length l

/-- The placeholder scanner `extractParams` of `builders.ts`. -/
def extractParams (template : String) : List String :=
  (extractParamsL template.toList).map fun n => (⟨n⟩ : String)

/-- A token of an href template: either a literal chunk or a `{name}`
placeholder.  Used to state which templates the regex-based replacement of
`buildHref` treats as the spec intends: those whose braces all delimit
placeholder tokens. -/
inductive HrefTok where
  | lit (s : List Char)
  | ph (n : List Char)
deriving DecidableEq

/-- Renders one template token back to text. -/
def renderTok : HrefTok → List Char
  | .lit s => s
  | .ph n => '{' :: (n ++ ['}'])

/-- Renders a token list back to the template text. -/
def renderT (ts : List HrefTok) : List Char :=
  ts.flatMap renderTok

/-- Boolean test that a character list contains no brace characters. -/
def braceFree (l : List Char) : Bool :=
  l.all fun c => c ≠ '{' && c ≠ '}'

/-- Well-formedness of a template token: literal chunks and placeholder names
are brace-free. -/
def wfTok : HrefTok → Bool
  | .lit s => braceFree s
  | .ph n => braceFree n

/-- Token-level effect of one `buildHref` replacement step: the placeholder
`{k}` becomes the literal replacement text, everything else is untouched. -/
def substTok (k enc : List Char) : HrefTok → HrefTok
  | .lit s => .lit s
  | .ph n => if n = k then .lit enc else .ph n

/-- Token-level effect of a whole `buildHref` run: apply the entries in order. -/
def applyEntries (ts : List HrefTok) (params : List (String × JsVal)) :
    List HrefTok :=
  params.foldl
    (fun acc kv =>
      acc.map (substTok kv.1.toList (encodeURIComponentL (joinVal kv.2).toList)))
    ts

/-- JS decimal digit test. -/
def isDigitChar (c : Char) : Bool := '0' ≤ c && c ≤ '9'

/-- Characters that stand for themselves in a JS regular expression pattern:
everything except the syntax characters `\ ^ $ . | ? * + ( ) [ ] { }`. -/
def regexPlainChar (c : Char) : Bool :=
  c != '\\' && c != '^' && c != '$' && c != '.' && c != '|' && c != '?' &&
  c != '*' && c != '+' && c != '(' && c != ')' && c != '[' && c != ']' &&
  c != '{' && c != '}'

/-- The braced-quantifier shapes of ECMA-262: a key of this shape makes the
pattern `{key}` read `{digits}`, `{digits,}` or `{digits,digits}`, which at
atom position is a `SyntaxError` (Annex B `InvalidBracedQuantifier`). -/
def quantifierShape (key : List Char) : Bool :=
  match splitAtFirst ',' key with
  | none => key ≠ [] && key.all isDigitChar
  | some (a, b) =>
    a ≠ [] && a.all isDigitChar && (b = [] || b ≠ [] && b.all isDigitChar)

/-- Keys for which the source's `new RegExp('{'+key+'}', 'g')` is the regular
expression matching exactly the literal string `{key}`: every character is a
plain regex character and the braced text is not a quantifier shape.  On this
domain the literal-replacement embedding `buildHrefL` is the source's
`buildHref`. -/
def regexSafeKey (key : List Char) : Bool :=
  key.all regexPlainChar && !quantifierShape key

/-- Value of a digit string. -/
def digitsVal (l : List Char) : Nat :=
  l.foldl (fun a c => 10 * a + (c.toNat - 48)) 0

/-- Whitespace skipped by JS numeric parsing (the common code points). -/
def isJsWhitespace (c : Char) : Bool :=
  c = ' ' || c = '\t' || c = '\n' || c = '\r' || c.toNat = 11 || c.toNat = 12 ||
  c.toNat = 0xA0 || c.toNat = 0xFEFF

/-- Optional leading sign; returns (isNegative, remainder). -/
def splitSign : List Char → (Bool × List Char)
  | '-' :: r => (true, r)
  | '+' :: r => (false, r)
  | l => (false, l)

/-- Scales a rational by a power of ten (the exponent part of a JS float
literal). -/
def applyExp (q : Rat) (e : Int) : Rat :=
  if 0 ≤ e then q * ((10 ^ e.toNat : Nat) : Rat)
  else q / ((10 ^ (-e).toNat : Nat) : Rat)

/-- Shared core of JS `parseFloat` / `Number`: parses a leading decimal float
literal (sign, digits, optional fraction, optional exponent) and returns its
exact rational value together with the unconsumed remainder; `none` models NaN.
`Infinity` and hex/octal/binary literals are outside the fragment the
validators exercise and are not modelled. -/
def parseFloatCore (l0 : List Char) : Option (Rat × List Char) :=
  let sg := splitSign l0
  let l1 := sg.2
  let ip := l1.takeWhile isDigitChar
  let r1 := l1.dropWhile isDigitChar
  let fpr : List Char × List Char :=
    match r1 with
    | '.' :: rr => (rr.takeWhile isDigitChar, rr.dropWhile isDigitChar)
    | _ => ([], r1)
  let fp := fpr.1
  let r2 := fpr.2
  if ip = [] ∧ fp = [] then none
  else
    let mant0 : Rat :=
      (digitsVal ip : Rat) + (digitsVal fp : Rat) / ((10 ^ fp.length : Nat) : Rat)
    let mant : Rat := if sg.1 then -mant0 else mant0
    match r2 with
    | e :: rr =>
      if e = 'e' ∨ e = 'E' then
        let es := splitSign rr
        let ed := es.2.takeWhile isDigitChar
        let r3 := es.2.dropWhile isDigitChar
        if ed = [] then some (mant, r2)
        else
          let ev : Int :=
            if es.1 then -(digitsVal ed : Int) else (digitsVal ed : Int)
          some (applyExp mant ev, r3)
      else some (mant, r2)
    | [] => some (mant, [])

/-- JS `parseFloat`: skip leading whitespace, parse a leading float literal,
ignore trailing junk; `none` models NaN. -/
def parseFloatQ (s : String) : Option Rat :=
  (parseFloatCore (s.toList.dropWhile isJsWhitespace)).map (·.1)

/-- Trims JS whitespace at both ends. -/
def trimJs (l : List Char) : List Char :=
  ((l.dropWhile isJsWhitespace).reverse.dropWhile isJsWhitespace).reverse

/-- JS `Number(string)`: full-string numeric conversion; the empty (or
all-whitespace) string converts to `0`, anything not entirely a float literal
is NaN (`none`). -/
def jsNumberParse (s : String) : Option Rat :=
  let l := trimJs s.toList
  if l = [] then some 0
  else
    match parseFloatCore l with
    | some (q, []) => some q
    | _ => none

/-- Display of a JS number inside a template string.  Integral values print as
in JS; the validators' messages only ever interpolate the integral bounds used
in the spec's examples, so the non-terminating-decimal case is left in an
exact num/den form. -/
def ratDisplay (q : Rat) : String :=
  if q.den = 1 then toString q.num
  else toString q.num ++ "/" ++ toString q.den

/-- A `min`/`max` bound of TS type `string | number`. -/
inductive MinMax where
  | str (s : String)
  | num (q : Rat)
deriving DecidableEq

/-- Template interpolation `${bound}` of a `string | number` bound. -/
def jsDisplayMinMax : MinMax → String
  | .str s => s
  | .num q => ratDisplay q

/-- JS `Number(bound)` of a `string | number` bound (`none` = NaN). -/
def jsNumberOfMinMax : MinMax → Option Rat
  | .num q => some q
  | .str s => jsNumberParse s

/-- The `ActionParameterType` enum of `types.ts`. -/
inductive ParamType where
  | text
  | number
  | email
  | url
  | date
  | datetimeLocal
  | textarea
  | select
  | radio
  | checkbox
  | address
  | token
  | amount
deriving DecidableEq

/-- Option entry for select/radio/checkbox parameters. -/
structure ActionParameterOption where
  label : String
  value : String
  selected : Option Bool
deriving DecidableEq

/-- A typed action parameter (the union of the plain and selectable variants of
`types.ts`: the selectable variant carries `options`, the plain one leaves it
absent). -/
structure TypedActionParameter where
  type : Option ParamType
  name : String
  label : Option String
  required : Option Bool
  pattern : Option String
  patternDescription : Option String
  min : Option MinMax
  max : Option MinMax
  options : Option (List ActionParameterOption)
deriving DecidableEq

/-- Hex digit test for the address/hex regexes of `validators.ts`. -/
def isHexDigitChar (c : Char) : Bool :=
  ('0' ≤ c && c ≤ '9') || ('a' ≤ c && c ≤ 'f') || ('A' ≤ c && c ≤ 'F')

/-- The `isValidAddress` helper of `validators.ts`: the regex
`^0x[a-fA-F0-9]{40}$`. -/
def isValidAddress (s : String) : Bool :=
  match s.toList with
  | '0' :: 'x' :: rest => rest.length == 40 && rest.all isHexDigitChar
  | _ => false

/-- The `isValidHex` helper of `validators.ts`: the regex `^0x[a-fA-F0-9]*$`. -/
def isValidHex (s : String) : Bool :=
  match s.toList with
  | '0' :: 'x' :: rest => rest.all isHexDigitChar
  | _ => false

/-- JS `param.label || param.name` (a present-but-empty label is falsy). -/
def labelOrName (p : TypedActionParameter) : String :=
  match p.label with
  | some l => if l = "" then p.name else l
  | none => p.name

/-- The per-parameter body of the `validateParameterValues` loop of
`validators.ts`.  `regexTest` abstracts `new RegExp(pattern).test`; `value` is
`values[param.name]` (`none` = absent).  Mirrors the source checks in order:
required, skip-if-empty, pattern, number/amount range, address. -/
def errorsForParam (regexTest : String → String → Bool)
    (p : TypedActionParameter) (value : Option JsVal) : List String :=
  if p.required.getD false = true ∧
      (value = none ∨ value = some (JsVal.str "") ∨
        value = some (JsVal.arr [])) then
    [labelOrName p ++ " is required"]
  else if value = none ∨ value = some (JsVal.str "") then []
  else
    let strValue : Option String :=
      match value with
      | some (JsVal.str s) => some s
      | some (JsVal.arr a) => a.head?
      | none => none
    let strTruthy : Option String :=
      match strValue with
      | some s => if s = "" then none else some s
      | none => none
    let patErr : List String :=
      match p.pattern, strTruthy with
      | some pat, some s =>
        if pat ≠ "" ∧ regexTest pat s = false then
          [match p.patternDescription with
           | some d => if d = "" then labelOrName p ++ " has invalid format" else d
           | none => labelOrName p ++ " has invalid format"]
        else []
      | _, _ => []
    let numErr : List String :=
      match strTruthy with
      | some s =>
        if p.type = some .number ∨ p.type = some .amount then
          match parseFloatQ s with
          | none => [labelOrName p ++ " must be a number"]
          | some q =>
            (match p.min with
             | some mv =>
               match jsNumberOfMinMax mv with
               | some m =>
                 if Rat.blt q m then
                   [labelOrName p ++ " must be at least " ++ jsDisplayMinMax mv]
                 else []
               | none => []
             | none => []) ++
            (match p.max with
             | some mv =>
               match jsNumberOfMinMax mv with
               | some m =>
                 if Rat.blt m q then
                   [labelOrName p ++ " must be at most " ++ jsDisplayMinMax mv]
                 else []
               | none => []
             | none => [])
        else []
      | none => []
    let addrErr : List String :=
      match strTruthy with
      | some s =>
        if p.type = some .address ∧ isValidAddress s = false then
          [labelOrName p ++ " must be a valid Ethereum address"]
        else []
      | none => []
    patErr ++ numErr ++ addrErr

/-- JS `errors.join(', ')`. -/
def joinComma : List String → String
  | [] => ""
  | [e] => e
  | e :: rest => e ++ ", " ++ joinComma rest

/-- Result type of the validators (`ValidationResult<T>` of `types.ts`).  For
the zod-based validators `fail` carries the ordered issue messages of
`result.error`; for `validateParameterValues` it carries the single joined
error string, exactly as the source builds it. -/
inductive ValidationResult (α : Type) where
  | ok (data : α)
  | fail (issues : List String)
deriving DecidableEq

/-- Success flag of a `ValidationResult` (the `success` field). -/
def ValidationResult.isOk {α : Type} : ValidationResult α → Bool
  | .ok _ => true
  | .fail _ => false

/-- The `validateParameterValues` function of `validators.ts`: every parameter
is checked, all error messages are collected, and a failure carries their
comma-join as its single error string. -/
def validateParameterValues (regexTest : String → String → Bool)
    (parameters : List TypedActionParameter)
    (values : String → Option JsVal) :
    ValidationResult (String → Option JsVal) :=
  let errors :=
    parameters.flatMap fun p => errorsForParam regexTest p (values p.name)
  if errors = [] then .ok values else .fail [joinComma errors]

/-- Functional update of a value mapping (one binding of the `values` record). -/
def updateVals (values : String → Option JsVal) (k : String) (v : JsVal) :
    String → Option JsVal :=
  fun n => if n = k then some v else values n

/-- The spec's required `amount` parameter with `min=1`, `max=100` (as built by
the `amountParam` builder, whose default label is `Amount`). -/
def amountP : TypedActionParameter :=
  { type := some .amount, name := "amount", label := some "Amount",
    required := some true, pattern := none, patternDescription := none,
    min := some (.num 1), max := some (.num 100), options := none }

/-- A required `address` parameter named `recipient`. -/
def recipientP : TypedActionParameter :=
  { type := some .address, name := "recipient", label := some "Recipient",
    required := some true, pattern := none, patternDescription := none,
    min := none, max := none, options := none }

/-- Error messages carried by a `ValidationResult` (empty on success). -/
def ValidationResult.errorIssues {α : Type} : ValidationResult α → List String
  | .ok _ => []
  | .fail l => l

/-- Zod's default too-small message for strings with `min(1)`. -/
def strMinMsg : String := "String must contain at least 1 character(s)"

/-- Zod's default too-big message for strings with `max(n)`. -/
def strMaxMsg (n : Nat) : String :=
  "String must contain at most " ++ toString n ++ " character(s)"

/-- Zod's default too-small message for arrays with `min(1)`. -/
def arrayMinMsg : String := "Array must contain at least 1 element(s)"

/-- The custom icon refinement message of `validators.ts`. -/
def iconMsg : String :=
  "Icon must be a valid URL, base64 data URI, or relative path"

/-- Zod's default message for a failed union (`TypedActionParameterSchema`). -/
def unionMsg : String := "Invalid input"

/-- The `ActionMetadataSchema` refinement message of `validators.ts`. -/
def metadataRefineMsg : String := "Must have at least one action or linked action"

/-- The `TransactionResponseSchema` refinement message of `validators.ts`. -/
def responseRefineMsg : String := "Must have either transaction or transactions"

/-- The `EVMTransaction` wire object of `types.ts` (`chainId` is a JS number;
the schema only constrains its sign, so an integer model suffices). -/
structure EVMTransaction where
  «to» : String
  value : String
  data : String
  chainId : Int
deriving DecidableEq

/-- Issue messages of `EVMTransactionSchema`: `to` must match the 40-hex-digit
address regex, `data` the hex regex, `chainId` must be positive; `value` is an
unconstrained string. -/
def txIssues (t : EVMTransaction) : List String :=
  (if isValidAddress t.«to» then [] else ["Invalid to address"]) ++
  (if isValidHex t.data then [] else ["Invalid hex data"]) ++
  (if 0 < t.chainId then [] else ["Number must be greater than 0"])

/-- The `TransactionResponse` wire object of `types.ts`.  The optional
`links.next` chaining pointer is not consulted by any claim and is omitted
from the model; it never influences the fields or checks below. -/
structure TransactionResponse where
  transaction : Option EVMTransaction
  transactions : Option (List EVMTransaction)
  message : Option String
deriving DecidableEq

/-- Structural (pre-refinement) issues of `TransactionResponseSchema`. -/
def transactionResponseIssues (r : TransactionResponse) : List String :=
  (match r.transaction with
   | some t => txIssues t
   | none => []) ++
  (match r.transactions with
   | some l => l.flatMap txIssues
   | none => [])

/-- The refinement of `TransactionResponseSchema`:
`data.transaction !== undefined || (data.transactions && data.transactions.length > 0)`. -/
def txRespRefine (r : TransactionResponse) : Bool :=
  match r.transaction with
  | some _ => true
  | none =>
    match r.transactions with
    | some l => decide (0 < l.length)
    | none => false

/-- The `validateTransactionResponse` function of `validators.ts`: zod runs the
refinement only when the base object parse succeeded. -/
def validateTransactionResponse (r : TransactionResponse) :
    ValidationResult TransactionResponse :=
  let issues := transactionResponseIssues r
  if issues = [] then
    if txRespRefine r then .ok r else .fail [responseRefineMsg]
  else .fail issues

/-- The transaction-list extraction of `useExecuteMlink.execute`
(`src/react/useExecuteMlink.ts`): `responseData.transactions ?
responseData.transactions : responseData.transaction ? [responseData.transaction] : []`
— a present `transactions` array is truthy even when empty. -/
def normalizeTransactions (r : TransactionResponse) : List EVMTransaction :=
  match r.transactions with
  | some l => l
  | none =>
    match r.transaction with
    | some t => [t]
    | none => []

/-- Legacy action entry kind (`'button' | 'input'`). -/
inductive ActionTypeTag where
  | button
  | input
deriving DecidableEq

/-- The legacy `ActionButton` of `types.ts`. -/
structure ActionButton where
  label : String
  value : String
  type : ActionTypeTag
  placeholder : Option String
  disabled : Option Bool
deriving DecidableEq

/-- Issues of `ActionButtonSchema` (`label` 1..50, `value` min 1). -/
def actionButtonIssues (b : ActionButton) : List String :=
  (if b.label.length = 0 then [strMinMsg]
   else if 50 < b.label.length then [strMaxMsg 50] else []) ++
  (if b.value.length = 0 then [strMinMsg] else [])

/-- Linked action kind (`'transaction' | 'post' | 'external-link'`). -/
inductive LinkedActionType where
  | transaction
  | post
  | externalLink
deriving DecidableEq

/-- The `isSelectableParam` discriminant: type is select, radio or checkbox. -/
def isSelectableType : Option ParamType → Bool
  | some .select => true
  | some .radio => true
  | some .checkbox => true
  | _ => false

/-- Validity of one option entry (`label` min 1; `value` unconstrained). -/
def optionOk (o : ActionParameterOption) : Bool :=
  decide (1 ≤ o.label.length)

/-- The shared base checks of `ActionParameterBaseSchema` (`name` 1..50,
`label` max 100). -/
def paramBaseOk (p : TypedActionParameter) : Bool :=
  decide (1 ≤ p.name.length) && decide (p.name.length ≤ 50) &&
  (match p.label with
   | some l => decide (l.length ≤ 100)
   | none => true)

/-- Validity of a parameter under `TypedActionParameterSchema` (the union of
the selectable schema — which requires a non-empty `options` — and the plain
schema, which requires a non-selectable or absent type). -/
def paramOk (p : TypedActionParameter) : Bool :=
  paramBaseOk p &&
  ((isSelectableType p.type &&
      (match p.options with
       | some os => decide (0 < os.length) && os.all optionOk
       | none => false)) ||
   !isSelectableType p.type)

/-- The `LinkedAction` of `types.ts`. -/
structure LinkedAction where
  type : Option LinkedActionType
  href : String
  label : String
  disabled : Option Bool
  parameters : Option (List TypedActionParameter)
deriving DecidableEq

/-- Issues of `LinkedActionSchema` (`href` min 1, `label` 1..50, each
parameter must satisfy the union schema — zod reports `Invalid input` for a
failed union). -/
def linkedActionIssues (a : LinkedAction) : List String :=
  (if a.href.length = 0 then [strMinMsg] else []) ++
  (if a.label.length = 0 then [strMinMsg]
   else if 50 < a.label.length then [strMaxMsg 50] else []) ++
  (match a.parameters with
   | some ps => ps.flatMap fun p => if paramOk p = true then [] else [unionMsg]
   | none => [])

/-- The `ActionLinks` wrapper of `types.ts`. -/
structure ActionLinks where
  actions : List LinkedAction
deriving DecidableEq

/-- Issues of `ActionLinksSchema`: the `actions` array must be non-empty
(`min(1)`), and each entry valid. -/
def actionLinksIssues (la : ActionLinks) : List String :=
  (if la.actions.length = 0 then [arrayMinMsg] else []) ++
  la.actions.flatMap linkedActionIssues

/-- Metadata kind (`'action' | 'completed'`). -/
inductive MetaType where
  | action
  | completed
deriving DecidableEq

/-- JS `String.prototype.startsWith` (on the character-list embedding). -/
def startsWithS (s p : String) : Bool :=
  isPre p.toList s.toList

/-- The icon refinement of `validators.ts`: http(s) URL, `data:image/` URI, or
root-relative path. -/
def iconOk (s : String) : Bool :=
  startsWithS s "http://" || startsWithS s "https://" ||
  startsWithS s "data:image/" || startsWithS s "/"

/-- The enhanced `ActionMetadata` of `types.ts`. -/
structure ActionMetadata where
  type : Option MetaType
  title : String
  icon : String
  description : String
  label : Option String
  actions : Option (List ActionButton)
  links : Option ActionLinks
  disabled : Option Bool
  error : Option String
deriving DecidableEq

/-- Structural (pre-refinement) issues of the enhanced `ActionMetadataSchema`:
`title` 1..200, icon refinement, `description` 1..1000, `label` max 50,
legacy `actions` entries (the legacy array itself may be empty), and `links`
when present. -/
def actionMetadataBaseIssues (m : ActionMetadata) : List String :=
  (if m.title.length = 0 then [strMinMsg]
   else if 200 < m.title.length then [strMaxMsg 200] else []) ++
  (if iconOk m.icon then [] else [iconMsg]) ++
  (if m.description.length = 0 then [strMinMsg]
   else if 1000 < m.description.length then [strMaxMsg 1000] else []) ++
  (match m.label with
   | some l => if 50 < l.length then [strMaxMsg 50] else []
   | none => []) ++
  (match m.actions with
   | some bs => bs.flatMap actionButtonIssues
   | none => []) ++
  (match m.links with
   | some la => actionLinksIssues la
   | none => [])

/-- The refinement of `ActionMetadataSchema`:
`(data.actions && data.actions.length > 0) || (data.links?.actions && data.links.actions.length > 0)`. -/
def actionMetadataRefine (m : ActionMetadata) : Bool :=
  (match m.actions with
   | some bs => decide (0 < bs.length)
   | none => false) ||
  (match m.links with
   | some la => decide (0 < la.actions.length)
   | none => false)

/-- The `validateActionMetadata` function of `validators.ts`: zod runs the
refinement only when the base object parse succeeded. -/
def validateActionMetadata (m : ActionMetadata) :
    ValidationResult ActionMetadata :=
  let issues := actionMetadataBaseIssues m
  if issues = [] then
    if actionMetadataRefine m then .ok m else .fail [metadataRefineMsg]
  else .fail issues

/-- The two concrete transactions used by the C6 witness. -/
def txSingleA : EVMTransaction :=
  { «to» := "0xaaaaaaaaaaaaaaaaaaaaaaaaaaaaaaaaaaaaaaaa",
    value := "1", data := "0x", chainId := 5000 }

/-- Second concrete transaction for the C6 witness. -/
def txBatchB : EVMTransaction :=
  { «to» := "0xbbbbbbbbbbbbbbbbbbbbbbbbbbbbbbbbbbbbbbbb",
    value := "2", data := "0xdead", chainId := 5000 }

/-- A response carrying both a single transaction and a non-empty batch. -/
def respBoth : TransactionResponse :=
  { transaction := some txSingleA, transactions := some [txBatchB],
    message := none }

/-- The enhanced `TransactionRequest` of `types.ts` (`data` is the optional
parameter record, modelled as an association list). -/
structure TransactionRequest where
  account : String
  action : String
  input : Option String
  data : Option (List (String × JsVal))
deriving DecidableEq

/-- Issues of the enhanced `TransactionRequestSchema`: `account` must match
the address regex, `action` must be non-empty; `input` and `data` are
structurally unconstrained beyond their types. -/
def transactionRequestIssues (r : TransactionRequest) : List String :=
  (if isValidAddress r.account then [] else ["Invalid Ethereum address"]) ++
  (if r.action.length = 0 then [strMinMsg] else [])

/-- The `validateTransactionRequest` function of `validators.ts`. -/
def validateTransactionRequest (r : TransactionRequest) :
    ValidationResult TransactionRequest :=
  let issues := transactionRequestIssues r
  if issues = [] then .ok r else .fail issues

/-- The `ActionContext` handed to the user handler: `handleRequest` either
throws (`Except.error` with the thrown message) or invokes the handler with
this context and propagates its response — so `.ok ctx` models "the handler is
invoked with `ctx`". -/
structure ActionContext where
  account : String
  action : String
  input : Option String
  data : Option (List (String × JsVal))
deriving DecidableEq

/-- The legacy-action lookup of `createAction.handleRequest`:
`definition.actions.find(a => a.value === request.action || (a.type === 'input' && request.action === '__input__'))`. -/
def findSelectedAction (actions : List ActionButton)
    (request : TransactionRequest) : Option ActionButton :=
  actions.find? fun a =>
    decide (a.value = request.action) ||
    (decide (a.type = ActionTypeTag.input) && decide (request.action = "__input__"))

/-- The enhanced `createAction.handleRequest` of `builders.ts` (the version
supporting both legacy and linked actions), with the handler call abstracted:
after request validation, when a legacy `actions` array is configured
(`if (definition.actions)` — an empty array is still truthy) the selected
action is looked up, and only a matched input-type entry with a missing
`input` raises an error; an unmatched action falls through and the handler is
invoked with the full context. -/
def handleRequestEnhanced (defActions : Option (List ActionButton))
    (request : TransactionRequest) : Except String ActionContext :=
  match validateTransactionRequest request with
  | .fail issues => .error (joinComma issues)
  | .ok _ =>
    match defActions with
    | some acts =>
      match findSelectedAction acts request with
      | some sel =>
        if sel.type = ActionTypeTag.input ∧ request.input.getD "" = "" then
          .error "Input value is required"
        else
          .ok ⟨request.account, request.action, request.input, request.data⟩
      | none => .ok ⟨request.account, request.action, request.input, request.data⟩
    | none => .ok ⟨request.account, request.action, request.input, request.data⟩

/-- The legacy `createAction.handleRequest` (the variant whose definition
requires a non-empty `actions` array): an unmatched action throws
`Invalid action selected` before the handler can run; the legacy handler
context carries no `data`. -/
def handleRequestLegacy (actions : List ActionButton)
    (request : TransactionRequest) : Except String ActionContext :=
  match validateTransactionRequest request with
  | .fail issues => .error (joinComma issues)
  | .ok _ =>
    match findSelectedAction actions request with
    | none => .error "Invalid action selected"
    | some sel =>
      if sel.type = ActionTypeTag.input ∧ request.input.getD "" = "" then
        .error "Input value is required"
      else
        .ok ⟨request.account, request.action, request.input, none⟩

/-- A concrete legacy button and schema-valid request selecting no action. -/
def btnGo : ActionButton :=
  { label := "Do it", value := "go", type := ActionTypeTag.button,
    placeholder := none, disabled := none }

/-- A schema-valid request whose `action` matches no configured entry. -/
def reqOther : TransactionRequest :=
  { account := "0xaaaaaaaaaaaaaaaaaaaaaaaaaaaaaaaaaaaaaaaa",
    action := "other", input := none, data := none }

/-- Client-side execution status (`MlinkStatus` of `react/types.ts`). -/
inductive MlinkStatus where
  | ready
  | loading
  | executing
  | success
  | error
deriving DecidableEq

/-- The wallet-adapter capability consumed by `useExecuteMlink`: connection
state, current address, and the observable outcomes of `connect()` and
`signAndSendTransaction` (modelled as functions of the submitted
transaction). -/
structure MlinkAdapter where
  isConnected : Bool
  getAddress : Option String
  connectR : Except String String
  signAndSendTransaction : EVMTransaction → Except String String

/-- The observable final state of one `execute` run: the hook's `status`,
`txHash` and `error` state after settlement, plus the ordered trace of
transactions handed to the adapter's `signAndSendTransaction`. -/
structure ExecOutcome where
  status : MlinkStatus
  txHash : Option String
  errorMsg : Option String
  signCalls : List EVMTransaction
deriving DecidableEq

/-- Outcome of the POST to the action endpoint, as `execute` observes it:
either a non-ok HTTP response (carrying the message the code derives from the
error payload or status) or an ok response with a parsed body. -/
inductive FetchResult where
  | httpFail (msg : String)
  | ok (body : TransactionResponse)

/-- The sequential signing loop of `execute`
(`for (const tx of transactions) lastHash = await adapter.signAndSendTransaction(tx)`):
returns the transactions actually handed to the adapter, in order, and either
the last hash or the first failure. -/
def runTxs (sign : EVMTransaction → Except String String) :
    List EVMTransaction → String → List EVMTransaction × Except String String
  | [], last => ([], .ok last)
  | tx :: rest, _ =>
    match sign tx with
    | .ok h =>
      let p := runTxs sign rest h
      (tx :: p.1, p.2)
    | .error e => ([tx], .error e)

/-- Error settlement of `execute`'s catch block: `setError(msg)`,
`setStatus('error')`; `txHash` keeps the `null` set at the start of the run. -/
def errorOutcome (msg : String) (calls : List EVMTransaction) : ExecOutcome :=
  { status := .error, txHash := none, errorMsg := some msg, signCalls := calls }

/-- The `execute` operation of `useExecuteMlink`
(`src/react/useExecuteMlink.ts`), as a pure function of the adapter behaviour
and the HTTP outcome.  It mirrors the source exactly: clear `error`/`txHash`,
resolve the account (connecting when disconnected or address-less), take the
fetch outcome, extract the transaction list (`transactions` preferred, even
when empty, else the wrapped single `transaction`), fail on an empty list,
sign sequentially, and only then publish the last hash and `success`.  Note
that the imported `validateTransactionResponse` is never called on this path. -/
def execute (adapter : MlinkAdapter) (fetchRes : FetchResult) : ExecOutcome :=
  let needConnect :=
    !adapter.isConnected || adapter.getAddress.getD "" == ""
  match (if needConnect then adapter.connectR
         else .ok (adapter.getAddress.getD "")) with
  | .error e => errorOutcome e []
  | .ok _account =>
    match fetchRes with
    | .httpFail msg => errorOutcome msg []
    | .ok body =>
      let txs := normalizeTransactions body
      if txs = [] then errorOutcome "No transaction returned from action" []
      else
        let p := runTxs adapter.signAndSendTransaction txs ""
        match p.2 with
        | .ok h =>
          { status := .success, txHash := some h, errorMsg := none,
            signCalls := p.1 }
        | .error e => errorOutcome e p.1

/-- A transaction whose `to` fails the address regex, so the body carrying it
fails `TransactionResponseSchema`. -/
def badTx : EVMTransaction :=
  { «to» := "0xdead", value := "0", data := "0x", chainId := 1 }

/-- A response body that fails schema validation (invalid `to` address) but
still carries a `transactions` array. -/
def badBody : TransactionResponse :=
  { transaction := none, transactions := some [badTx], message := none }

/-- A connected adapter whose signing always succeeds with a fixed hash. -/
def okAdapter : MlinkAdapter :=
  { isConnected := true, getAddress := some "0xuser",
    connectR := .ok "0xuser",
    signAndSendTransaction := fun _ => .ok "0xbroadcast" }

/-- The two transactions of the C2 execution trace. -/
def txFirstA : EVMTransaction :=
  { «to» := "0x1111111111111111111111111111111111111111",
    value := "1", data := "0x", chainId := 5000 }

/-- Second transaction of the C2 execution trace. -/
def txSecondB : EVMTransaction :=
  { «to» := "0x2222222222222222222222222222222222222222",
    value := "2", data := "0x", chainId := 5000 }

/-- An adapter that signs `txFirstA` successfully and rejects everything
else. -/
def abAdapter : MlinkAdapter :=
  { isConnected := true, getAddress := some "0xuser",
    connectR := .ok "0xuser",
    signAndSendTransaction := fun tx =>
      if tx = txFirstA then .ok "0xhashA" else .error "User rejected" }

/-- The `transactions = [A, B]` response body of C2. -/
def abBody : TransactionResponse :=
  { transaction := none, transactions := some [txFirstA, txSecondB],
    message := none }

/-- Value of a hexadecimal digit character (case-insensitive), `none` for
non-hex characters. -/
def hexVal (c : Char) : Option Nat :=
  if '0' ≤ c ∧ c ≤ '9' then some (c.toNat - 48)
  else if 'A' ≤ c ∧ c ≤ 'F' then some (c.toNat - 55)
  else if 'a' ≤ c ∧ c ≤ 'f' then some (c.toNat - 87)
  else none

/-- Reads two hexadecimal digit characters from the front of the list and
returns the byte they denote with the remaining characters; `none` if the list
is too short or a character is not a hex digit. -/
def pctDecode2 : List Char → Option (Nat × List Char)
  | h1 :: h2 :: r2 =>
    (hexVal h1).bind fun a => (hexVal h2).map fun b => (16 * a + b, r2)
  | _ => none

/-- Fuel-driven scanner behind `formBytes`; fuel at least the input length is
always sufficient (every step consumes at least one character). -/
def formBytesGo : Nat → List Char → List Nat
  | _, [] => []
  | 0, _ :: _ => []
  | fuel + 1, c :: rest =>
    if c = '+' then 32 :: formBytesGo fuel rest
    else if c = '%' then
      (pctDecode2 rest).elim (utf8Bytes '%' ++ formBytesGo fuel rest)
        (fun p => p.1 :: formBytesGo fuel p.2)
    else utf8Bytes c ++ formBytesGo fuel rest

/-- Byte sequence produced by `application/x-www-form-urlencoded` decoding
(the value decoding of `URLSearchParams.get`): `+` is a space, a `%` followed
by two hex digits is that byte, a malformed `%` stays verbatim, and every other
character contributes its UTF-8 bytes. -/
def formBytes (l : List Char) : List Nat :=
  formBytesGo l.length l

/-- Continuation-byte test for UTF-8 decoding. -/
def contB (b : Nat) : Bool := 128 ≤ b && b ≤ 191

/-- The U+FFFD replacement character. -/
def fffd : Char := Char.ofNat 0xFFFD

/-- Second-byte constraint of a three-byte UTF-8 sequence (excluding overlong
forms and surrogates). -/
def okE2 (b b2 : Nat) : Bool :=
  if b = 224 then 160 ≤ b2 && b2 ≤ 191
  else if b = 237 then 128 ≤ b2 && b2 ≤ 159
  else contB b2

/-- Second-byte constraint of a four-byte UTF-8 sequence. -/
def okF2 (b b2 : Nat) : Bool :=
  if b = 240 then 144 ≤ b2 && b2 ≤ 191
  else if b = 244 then 128 ≤ b2 && b2 ≤ 143
  else contB b2

/-- Reads the single continuation byte of a two-byte UTF-8 sequence led by `b`,
giving the decoded code point and the remaining bytes. -/
def utf8Cont1 (b : Nat) : List Nat → Option (Nat × List Nat)
  | b2 :: r2 =>
    if contB b2 then some ((b - 192) * 64 + (b2 - 128), r2) else none
  | _ => none

/-- Reads the two continuation bytes of a three-byte UTF-8 sequence led by `b`. -/
def utf8Cont2 (b : Nat) : List Nat → Option (Nat × List Nat)
  | b2 :: b3 :: r3 =>
    if okE2 b b2 && contB b3 then
      some ((b - 224) * 4096 + (b2 - 128) * 64 + (b3 - 128), r3)
    else none
  | _ => none

/-- Reads the three continuation bytes of a four-byte UTF-8 sequence led by `b`. -/
def utf8Cont3 (b : Nat) : List Nat → Option (Nat × List Nat)
  | b2 :: b3 :: b4 :: r4 =>
    if okF2 b b2 && contB b3 && contB b4 then
      some ((b - 240) * 262144 + (b2 - 128) * 4096 + (b3 - 128) * 64 +
        (b4 - 128), r4)
    else none
  | _ => none

/-- Fuel-driven scanner behind `utf8DecodeLossy`. -/
def utf8DecodeLossyGo : Nat → List Nat → List Char
  | _, [] => []
  | 0, _ :: _ => []
  | fuel + 1, b :: r =>
    if b < 128 then Char.ofNat b :: utf8DecodeLossyGo fuel r
    else if 194 ≤ b ∧ b ≤ 223 then
      (utf8Cont1 b r).elim (fffd :: utf8DecodeLossyGo fuel r)
        (fun p => Char.ofNat p.1 :: utf8DecodeLossyGo fuel p.2)
    else if 224 ≤ b ∧ b ≤ 239 then
      (utf8Cont2 b r).elim (fffd :: utf8DecodeLossyGo fuel r)
        (fun p => Char.ofNat p.1 :: utf8DecodeLossyGo fuel p.2)
    else if 240 ≤ b ∧ b ≤ 244 then
      (utf8Cont3 b r).elim (fffd :: utf8DecodeLossyGo fuel r)
        (fun p => Char.ofNat p.1 :: utf8DecodeLossyGo fuel p.2)
    else fffd :: utf8DecodeLossyGo fuel r

/-- Lossy UTF-8 decoding (WHATWG style, invalid bytes become U+FFFD), used by
`URLSearchParams` value decoding. -/
def utf8DecodeLossy (bs : List Nat) : List Char :=
  utf8DecodeLossyGo bs.length bs

/-- `application/x-www-form-urlencoded` decoding of a value, as
`URLSearchParams.get` performs it. -/
def formDecodeL (l : List Char) : List Char :=
  utf8DecodeLossy (formBytes l)

/-- Fuel-driven scanner behind `pctBytesStrict`. -/
def pctBytesStrictGo : Nat → List Char → Option (List Nat)
  | _, [] => some []
  | 0, _ :: _ => some []
  | fuel + 1, c :: rest =>
    if c = '%' then
      (pctDecode2 rest).elim none
        (fun p => (pctBytesStrictGo fuel p.2).map (p.1 :: ·))
    else (pctBytesStrictGo fuel rest).map (fun bs => utf8Bytes c ++ bs)

/-- Strict percent-decoding to bytes, as ECMA-262 `decodeURIComponent`
performs it: a `%` must be followed by two hex digits (else the call throws,
modelled as `none`); other characters contribute their UTF-8 bytes. -/
def pctBytesStrict (l : List Char) : Option (List Nat) :=
  pctBytesStrictGo l.length l

/-- Fuel-driven scanner behind `utf8DecodeStrict`. -/
def utf8DecodeStrictGo : Nat → List Nat → Option (List Char)
  | _, [] => some []
  | 0, _ :: _ => some []
  | fuel + 1, b :: r =>
    if b < 128 then (utf8DecodeStrictGo fuel r).map (Char.ofNat b :: ·)
    else if 194 ≤ b ∧ b ≤ 223 then
      (utf8Cont1 b r).elim none
        (fun p => (utf8DecodeStrictGo fuel p.2).map (Char.ofNat p.1 :: ·))
    else if 224 ≤ b ∧ b ≤ 239 then
      (utf8Cont2 b r).elim none
        (fun p => (utf8DecodeStrictGo fuel p.2).map (Char.ofNat p.1 :: ·))
    else if 240 ≤ b ∧ b ≤ 244 then
      (utf8Cont3 b r).elim none
        (fun p => (utf8DecodeStrictGo fuel p.2).map (Char.ofNat p.1 :: ·))
    else none

/-- Strict UTF-8 decoding (overlong forms and surrogates rejected), as ECMA-262
`decodeURIComponent` performs it; `none` models a thrown `URIError`. -/
def utf8DecodeStrict (bs : List Nat) : Option (List Char) :=
  utf8DecodeStrictGo bs.length bs

/-- JS `decodeURIComponent` on a character list (`none` models a thrown
`URIError`). -/
def decodeURIComponentL (l : List Char) : Option (List Char) :=
  (pctBytesStrict l).bind utf8DecodeStrict

/-- Splits on every occurrence of `t` (the `&` splitting of a query string). -/
def splitOn (t : Char) (l : List Char) : List (List Char) :=
  l.foldr
    (fun c acc =>
      if c = t then [] :: acc
      else
        match acc with
        | a :: r => (c :: a) :: r
        | [] => [[c]])
    [[]]

/-- The name/value pairs of a query string, per the `application/x-www-form-urlencoded`
parser: split on `&`, skip empty segments, split each segment at its first
`=` (a segment without `=` is a name with empty value). -/
def spPairs (q : List Char) : List (List Char × List Char) :=
  (splitOn '&' q).filterMap fun seg =>
    if seg = [] then none
    else
      match splitAtFirst '=' seg with
      | none => some (seg, [])
      | some (k, v) => some (k, v)

/-- `url.searchParams.get(key)`: the decoded value of the first pair whose
decoded name equals `key`. -/
def searchParamsGetL (q : List Char) (key : List Char) : Option (List Char) :=
  (((spPairs q).filter fun kv => formDecodeL kv.1 == key).head?).map
    fun kv => formDecodeL kv.2

/-- The query component of a URL string: everything after the first `?`, up to
a `#`. -/
def queryOfL (l : List Char) : List Char :=
  match splitAtFirst '?' l with
  | none => []
  | some (_, q) => q.takeWhile fun c => c ≠ '#'

/-- ASCII-letter test for the first scheme character. -/
def isSchemeStart (c : Char) : Bool :=
  ('A' ≤ c && c ≤ 'Z') || ('a' ≤ c && c ≤ 'z')

/-- Scheme-character test (`[a-zA-Z0-9+.-]`). -/
def isSchemeChar (c : Char) : Bool :=
  isSchemeStart c || ('0' ≤ c && c ≤ '9') || c == '+' || c == '-' || c == '.'

/-- ASCII lower-casing of one character. -/
def lowerChar (c : Char) : Char :=
  if 'A' ≤ c && c ≤ 'Z' then Char.ofNat (c.toNat + 32) else c

/-- The special schemes that require an authority (`file` aside). -/
def specialSchemes : List (List Char) :=
  ["http".toList, "https".toList, "ws".toList, "wss".toList, "ftp".toList]

/-- Simplified model of WHATWG `new URL(s)` success (a sound subset): a valid
scheme followed by `:`, and for the special schemes additionally `//` and a
non-empty well-formed host.  Both helpers of `utils.ts` only use the parser as
a validity check. -/
def urlParseOkL : List Char → Bool
  | [] => false
  | c :: rest =>
    isSchemeStart c &&
    (match splitAtFirst ':' rest with
     | none => false
     | some (sch, after) =>
       sch.all isSchemeChar &&
       (if specialSchemes.contains ((c :: sch).map lowerChar) then
          match after with
          | '/' :: '/' :: hostPart =>
            let host := hostPart.takeWhile fun h => h ≠ '/' && h ≠ '?' && h ≠ '#'
            !host.isEmpty && host.all fun h => h ≠ ' ' && h ≠ '@'
          | _ => false
        else true))

/-- The `BLINK_BASE_URL` constant of `constants.ts`. -/
def BLINK_BASE_URL : String := "https://blink.mantle.xyz"

/-- The `ACTION_QUERY_PARAM` constant of `constants.ts`. -/
def ACTION_QUERY_PARAM : String := "action"

/-- The `createBlinkUrl` helper of `utils.ts`: validate the action URL (throw
`Invalid action URL` otherwise), then build
`${baseUrl}/blink?${ACTION_QUERY_PARAM}=${encodeURIComponent(actionUrl)}`. -/
def createBlinkUrl (actionUrl : String)
    (baseUrl : String := BLINK_BASE_URL) : Except String String :=
  if urlParseOkL actionUrl.toList then
    .ok (baseUrl ++ "/blink?" ++ ACTION_QUERY_PARAM ++ "=" ++
      encodeURIComponent actionUrl)
  else .error "Invalid action URL"

/-- The `parseBlinkUrl` helper of `utils.ts`: parse the wrapper URL, read the
`action` query parameter (already percent-decoded by `searchParams.get`; a
missing or empty value is falsy and yields `null`), apply `decodeURIComponent`
to it a second time, validate the result as a URL, and return it; any throw
yields `null`. -/
def parseBlinkUrl (blinkUrl : String) : Option String :=
  if urlParseOkL blinkUrl.toList then
    match searchParamsGetL (queryOfL blinkUrl.toList) ACTION_QUERY_PARAM.toList with
    | none => none
    | some ap =>
      if ap = [] then none
      else
        match decodeURIComponentL ap with
        | none => none
        | some au => if urlParseOkL au then some ⟨au⟩ else none
  else none

/-- The round trip of C3: encode with `createBlinkUrl` (default base URL), then
decode with `parseBlinkUrl`. -/
def blinkRoundTrip (u : String) : Option String :=
  match createBlinkUrl u with
  | .ok w => parseBlinkUrl w
  | .error _ => none

theorem replaceAllGo_fuel {pat rep : List Char} :
    ∀ (f1 : Nat) (l : List Char) (f2 : Nat), l.length ≤ f1 → l.length ≤ f2 →
      replaceAllGo pat rep f1 l = replaceAllGo pat rep f2 l := by
  intro f1
  induction f1 with
  | zero =>
    intro l f2 h1 _
    match l with
    | [] => cases f2 <;> rfl
    | c :: rest => simp at h1
  | succ g1 ih =>
    intro l f2 h1 h2
    match l with
    | [] => cases f2 <;> rfl
    | c :: rest =>
      match f2 with
      | 0 => simp at h2
      | g2 + 1 =>
        rw [replaceAllGo, replaceAllGo]
        by_cases hcond : pat ≠ [] ∧ isPre pat (c :: rest) = true
        · rw [if_pos hcond, if_pos hcond]
          have hd := List.length_drop (pat.length - 1) rest
          simp at h1 h2
          exact congrArg (rep ++ ·)
            (ih (List.drop (pat.length - 1) rest) g2 (by omega) (by omega))
        · rw [if_neg hcond, if_neg hcond]
          simp at h1 h2
          exact congrArg (c :: ·) (ih rest g2 (by omega) (by omega))

theorem replaceAllL_nil {pat rep : List Char} : replaceAllL pat rep [] = [] :=
  rfl

theorem replaceAllL_cons {pat rep : List Char} {c : Char} {rest : List Char} :
    replaceAllL pat rep (c :: rest) =
      if pat ≠ [] ∧ isPre pat (c :: rest) then
        rep ++ replaceAllL pat rep (List.drop (pat.length - 1) rest)
      else
        c :: replaceAllL pat rep rest := by
  rw [replaceAllL, List.length_cons, replaceAllGo]
  by_cases hcond : pat ≠ [] ∧ isPre pat (c :: rest) = true
  · rw [if_pos hcond, if_pos hcond, replaceAllL]
    have hd := List.length_drop (pat.length - 1) rest
    exact congrArg (rep ++ ·)
      (replaceAllGo_fuel rest.length (List.drop (pat.length - 1) rest)
        (List.drop (pat.length - 1) rest).length (by omega) (le_refl _))
  · rw [if_neg hcond, if_neg hcond, replaceAllL]

theorem isPre_cons_head {a : Char} {p l1 : List Char} {c : Char}
    (h : a ≠ c) : isPre (a :: p) (c :: l1) = false := by
  simp [isPre, h]

theorem isPre_self_append {a : List Char} : ∀ {l : List Char},
    isPre a (a ++ l) = true := by
  induction a with
  | nil => intro l; simp [isPre]
  | cons x xs ih => intro l; simpa [isPre] using ih

/-- Mismatch of two distinct brace-delimited placeholder tokens: `{k}` is never
a prefix of `{n}…` when `k ≠ n` and both names are brace-free. -/
theorem isPre_token_mismatch :
    ∀ {k n : List Char} {l : List Char}, braceFree k = true →
      braceFree n = true → k ≠ n →
      isPre (k ++ ['}']) (n ++ '}' :: l) = false := by
  intro k
  induction k with
  | nil =>
    intro n l _ hn hne
    match n with
    | [] => exact absurd rfl hne
    | c :: n2 =>
      simp [braceFree] at hn
      exact isPre_cons_head (fun h => hn.1.2 h.symm)
  | cons a k2 ih =>
    intro n l hk hn hne
    simp [braceFree] at hk
    match n with
    | [] =>
      exact isPre_cons_head hk.1.2
    | c :: n2 =>
      simp only [List.cons_append, isPre]
      by_cases hac : a = c
      · subst hac
        simp [braceFree] at hn
        have hne2 : k2 ≠ n2 := fun h => hne (by rw [h])
        have hib := ih (l := l) (by simp [braceFree]; exact hk.2)
          (by simp [braceFree]; exact hn.2) hne2
        simp [hib]
      · simp [hac]

/-- Scanning past a chunk of characters that cannot start the pattern. -/
theorem replaceAllL_skip {pat rep : List Char} {s : List Char}
    (hpat : ∃ p2, pat = '{' :: p2) (hs : ∀ c ∈ s, c ≠ '{') :
    ∀ l, replaceAllL pat rep (s ++ l) = s ++ replaceAllL pat rep l := by
  obtain ⟨p2, hp⟩ := hpat
  induction s with
  | nil => intro l; simp
  | cons c s2 ih =>
    intro l
    have hc : c ≠ '{' := hs c (by simp)
    have hcond : ¬(pat ≠ [] ∧ isPre pat (c :: (s2 ++ l)) = true) := by
      rintro ⟨-, hpre⟩
      rw [hp, isPre_cons_head (fun h => hc h.symm)] at hpre
      exact Bool.noConfusion hpre
    rw [List.cons_append, replaceAllL_cons, if_neg hcond,
      ih (fun x hx => hs x (by simp [hx]))]
    simp

theorem occursL_skip {pat : List Char} {s : List Char}
    (hpat : ∃ p2, pat = '{' :: p2) (hs : ∀ c ∈ s, c ≠ '{') :
    ∀ l, occursL pat (s ++ l) = occursL pat l := by
  obtain ⟨p2, hp⟩ := hpat
  induction s with
  | nil => intro l; simp
  | cons c s2 ih =>
    intro l
    have hc : c ≠ '{' := hs c (by simp)
    rw [List.cons_append, occursL]
    rw [ih (fun x hx => hs x (by simp [hx]))]
    rw [hp, isPre_cons_head (fun h => hc h.symm)]
    simp

theorem drop_token_tail {k : List Char} {r : List Char} :
    List.drop (('{' :: (k ++ ['}'])).length - 1) (k ++ '}' :: r) = r := by
  have h1 : k ++ '}' :: r = (k ++ ['}']) ++ r := by simp
  rw [h1]
  have hl : ('{' :: (k ++ ['}'])).length - 1 = (k ++ ['}']).length := by simp
  rw [hl, List.drop_left]

/-- Core correctness of one `buildHref` replacement pass over a well-formed
template: replacing `{k}` globally equals the token-level substitution. -/
theorem replaceAllL_renderT {k rep : List Char} (hk : braceFree k = true) :
    ∀ ts : List HrefTok, (∀ t ∈ ts, wfTok t = true) →
      replaceAllL ('{' :: (k ++ ['}'])) rep (renderT ts) =
        renderT (ts.map (substTok k rep)) := by
  intro ts
  induction ts with
  | nil => intro _; simp [renderT, replaceAllL_nil]
  | cons t ts2 ih =>
    intro hwf
    have hwt : wfTok t = true := hwf t (by simp)
    have hwr : ∀ x ∈ ts2, wfTok x = true := fun x hx => hwf x (by simp [hx])
    match t with
    | .lit s =>
      have hs : ∀ c ∈ s, c ≠ '{' := by
        intro c hc
        have hb := hwt
        simp [wfTok, braceFree, List.all_eq_true] at hb
        exact (hb c hc).1
      have hrend : renderT (HrefTok.lit s :: ts2) = s ++ renderT ts2 := by
        simp [renderT, renderTok]
      rw [hrend, replaceAllL_skip ⟨k ++ ['}'], rfl⟩ hs, ih hwr]
      simp [renderT, renderTok, substTok]
    | .ph n =>
      have hbn : braceFree n = true := hwt
      have hrend : renderT (HrefTok.ph n :: ts2) =
          '{' :: (n ++ '}' :: renderT ts2) := by simp [renderT, renderTok]
      by_cases hnk : n = k
      · subst hnk
        rw [hrend, replaceAllL_cons]
        rw [if_pos]
        · rw [drop_token_tail, ih hwr]
          simp [renderT, substTok, renderTok]
        · constructor
          · simp
          · have h2 : '{' :: (n ++ '}' :: renderT ts2) =
                ('{' :: (n ++ ['}'])) ++ renderT ts2 := by simp
            rw [h2, isPre_self_append]
      · rw [hrend, replaceAllL_cons, if_neg]
        · have hs : ∀ c ∈ n, c ≠ '{' := by
            intro c hc
            simp [braceFree, List.all_eq_true] at hbn
            exact (hbn c hc).1
          rw [replaceAllL_skip ⟨k ++ ['}'], rfl⟩ hs]
          rw [show ('}' :: renderT ts2) = ['}'] ++ renderT ts2 from rfl]
          rw [replaceAllL_skip ⟨k ++ ['}'], rfl⟩ (by intro c hc; simp at hc; simp [hc])]
          rw [ih hwr]
          simp [renderT, substTok, renderTok, hnk]
        · rintro ⟨-, hpre⟩
          simp only [isPre] at hpre
          rw [isPre_token_mismatch hk hbn (fun h => hnk h.symm)] at hpre
          simp at hpre

/-- After all `{k}` tokens have been substituted away, a well-formed template
contains no occurrence of the literal token `{k}`. -/
theorem occursL_renderT {k : List Char} (hk : braceFree k = true) :
    ∀ ts : List HrefTok, (∀ t ∈ ts, wfTok t = true) →
      (∀ n, HrefTok.ph n ∈ ts → n ≠ k) →
      occursL ('{' :: (k ++ ['}'])) (renderT ts) = false := by
  intro ts
  induction ts with
  | nil => intro _ _; simp [renderT, occursL, isPre]
  | cons t ts2 ih =>
    intro hwf hph
    have hwt : wfTok t = true := hwf t (by simp)
    have hwr : ∀ x ∈ ts2, wfTok x = true := fun x hx => hwf x (by simp [hx])
    have hpr : ∀ n, HrefTok.ph n ∈ ts2 → n ≠ k := fun n hn =>
      hph n (by simp [hn])
    match t with
    | .lit s =>
      have hs : ∀ c ∈ s, c ≠ '{' := by
        intro c hc
        have hb := hwt
        simp [wfTok, braceFree, List.all_eq_true] at hb
        exact (hb c hc).1
      have hrend : renderT (HrefTok.lit s :: ts2) = s ++ renderT ts2 := by
        simp [renderT, renderTok]
      rw [hrend, occursL_skip ⟨k ++ ['}'], rfl⟩ hs, ih hwr hpr]
    | .ph n =>
      have hbn : braceFree n = true := hwt
      have hnk : n ≠ k := hph n (by simp)
      have hrend : renderT (HrefTok.ph n :: ts2) =
          '{' :: (n ++ '}' :: renderT ts2) := by simp [renderT, renderTok]
      rw [hrend, occursL]
      have hpre : isPre ('{' :: (k ++ ['}'])) ('{' :: (n ++ '}' :: renderT ts2)) = false := by
        simp only [isPre]
        rw [isPre_token_mismatch hk hbn (fun h => hnk h.symm)]
        simp
      rw [hpre]
      have hs : ∀ c ∈ n, c ≠ '{' := by
        intro c hc
        simp [braceFree, List.all_eq_true] at hbn
        exact (hbn c hc).1
      rw [occursL_skip ⟨k ++ ['}'], rfl⟩ hs]
      rw [show ('}' :: renderT ts2) = ['}'] ++ renderT ts2 from rfl]
      rw [occursL_skip ⟨k ++ ['}'], rfl⟩ (by intro c hc; simp at hc; simp [hc])]
      rw [ih hwr hpr]
      simp

theorem hexDigitChar_notBrace (n : Nat) :
    hexDigitChar n ≠ '{' ∧ hexDigitChar n ≠ '}' := by
  by_cases h : n < 16
  · interval_cases n <;> exact ⟨by decide, by decide⟩
  · rw [hexDigitChar, List.getD_eq_default]
    · exact ⟨by decide, by decide⟩
    · have : ("0123456789ABCDEF".toList).length = 16 := by decide
      omega

/-- The output of `encodeURIComponent` never contains a brace character. -/
theorem braceFree_encodeURIComponentL (l : List Char) :
    braceFree (encodeURIComponentL l) = true := by
  induction l with
  | nil => rfl
  | cons c rest ih =>
    rw [encodeURIComponentL, List.flatMap_cons]
    rw [show (List.flatMap rest fun c =>
      if isUriUnescaped c then [c] else (utf8Bytes c).flatMap pctByte) =
        encodeURIComponentL rest from rfl]
    rw [braceFree, List.all_append]
    rw [show List.all (encodeURIComponentL rest)
      (fun c => c ≠ '{' && c ≠ '}') = braceFree (encodeURIComponentL rest) from rfl]
    rw [ih, Bool.and_true]
    by_cases hu : isUriUnescaped c = true
    · rw [if_pos hu]
      have h1 : c ≠ '{' := by
        intro h; subst h; exact absurd hu (by decide)
      have h2 : c ≠ '}' := by
        intro h; subst h; exact absurd hu (by decide)
      simp [h1, h2]
    · rw [if_neg hu]
      simp only [List.all_eq_true]
      intro x hx
      simp only [List.mem_flatMap] at hx
      obtain ⟨b, -, hb⟩ := hx
      simp only [pctByte, List.mem_cons] at hb
      rcases hb with h | h | h | h
      · subst h; decide
      · subst h
        have := hexDigitChar_notBrace (b / 16)
        simp [this.1, this.2]
      · subst h
        have := hexDigitChar_notBrace (b % 16)
        simp [this.1, this.2]
      · simp at h

theorem wfTok_substTok {k enc : List Char} (henc : braceFree enc = true)
    {t : HrefTok} (h : wfTok t = true) : wfTok (substTok k enc t) = true := by
  match t with
  | .lit s => exact h
  | .ph n =>
    rw [substTok]
    by_cases hnk : n = k
    · rw [if_pos hnk]; exact henc
    · rw [if_neg hnk]; exact h

theorem ph_mem_map_substTok {k enc n : List Char} {ts : List HrefTok}
    (h : HrefTok.ph n ∈ ts.map (substTok k enc)) :
    n ≠ k ∧ HrefTok.ph n ∈ ts := by
  simp only [List.mem_map] at h
  obtain ⟨t, ht, hs⟩ := h
  match t with
  | .lit s => simp [substTok] at hs
  | .ph m =>
    rw [substTok] at hs
    by_cases hmk : m = k
    · rw [if_pos hmk] at hs; exact absurd hs (by simp)
    · rw [if_neg hmk] at hs
      simp at hs
      subst hs
      exact ⟨hmk, ht⟩

/-- A whole `buildHref` run over a well-formed template equals the token-level
substitution of all entries, applied in order. -/
theorem buildHrefL_renderT :
    ∀ (ps : List (String × JsVal)) (ts : List HrefTok),
      (∀ t ∈ ts, wfTok t = true) →
      (∀ kv ∈ ps, braceFree kv.1.toList = true) →
      buildHrefL (renderT ts) ps = renderT (applyEntries ts ps) := by
  intro ps
  induction ps with
  | nil => intro ts _ _; rfl
  | cons kv ps2 ih =>
    intro ts hwf hbf
    have hk : braceFree kv.1.toList = true := hbf kv (by simp)
    have step : replaceAllL ('{' :: (kv.1.toList ++ ['}']))
        (encodeURIComponentL (joinVal kv.2).toList) (renderT ts) =
        renderT (ts.map (substTok kv.1.toList
          (encodeURIComponentL (joinVal kv.2).toList))) :=
      replaceAllL_renderT hk ts hwf
    have hwf2 : ∀ t ∈ ts.map (substTok kv.1.toList
        (encodeURIComponentL (joinVal kv.2).toList)), wfTok t = true := by
      intro t ht
      simp only [List.mem_map] at ht
      obtain ⟨t0, ht0, hs⟩ := ht
      rw [← hs]
      exact wfTok_substTok (braceFree_encodeURIComponentL _) (hwf t0 ht0)
    have hbf2 : ∀ x ∈ ps2, braceFree x.1.toList = true := fun x hx =>
      hbf x (by simp [hx])
    rw [show buildHrefL (renderT ts) (kv :: ps2) =
      buildHrefL (replaceAllL ('{' :: (kv.1.toList ++ ['}']))
        (encodeURIComponentL (joinVal kv.2).toList) (renderT ts)) ps2 from rfl]
    rw [step, ih _ hwf2 hbf2]
    rfl

theorem substTok_comm {k1 e1 k2 e2 : List Char} (hne : k1 ≠ k2) (t : HrefTok) :
    substTok k2 e2 (substTok k1 e1 t) = substTok k1 e1 (substTok k2 e2 t) := by
  match t with
  | .lit s => rfl
  | .ph n =>
    by_cases h1 : n = k1
    · subst h1
      simp [substTok, hne]
    · by_cases h2 : n = k2
      · subst h2
        have hne2 : n ≠ k1 := fun h => hne h.symm
        simp [substTok, h1, hne2]
      · simp [substTok, h1, h2]

/-- Entry order does not matter at the token level when the keys are pairwise
distinct. -/
theorem applyEntries_perm :
    ∀ {ps ps' : List (String × JsVal)}, ps.Perm ps' →
      List.Pairwise (fun a b => a.1 ≠ b.1) ps →
      ∀ ts, applyEntries ts ps = applyEntries ts ps' := by
  intro ps ps' hperm
  induction hperm with
  | nil => intro _ _; rfl
  | cons x hp ih =>
    intro hpw ts
    have := ih (List.Pairwise.sublist (List.sublist_cons_self x _) hpw)
    exact this _
  | swap x y l =>
    intro hpw ts
    have hxy : y.1 ≠ x.1 := by
      have := List.rel_of_pairwise_cons hpw (List.mem_cons_self x l)
      exact this
    show applyEntries (List.map _ (List.map _ ts)) l =
      applyEntries (List.map _ (List.map _ ts)) l
    rw [List.map_map, List.map_map]
    have hmaps : (substTok x.1.toList (encodeURIComponentL (joinVal x.2).toList)) ∘
        (substTok y.1.toList (encodeURIComponentL (joinVal y.2).toList)) =
        (substTok y.1.toList (encodeURIComponentL (joinVal y.2).toList)) ∘
        (substTok x.1.toList (encodeURIComponentL (joinVal x.2).toList)) := by
      funext t
      have hne : y.1.toList ≠ x.1.toList := by
        intro h
        apply hxy
        have h1 : (⟨y.1.toList⟩ : String) = ⟨x.1.toList⟩ := by rw [h]
        simpa using h1
      exact substTok_comm hne t
    rw [hmaps]
  | trans h1 h2 ih1 ih2 =>
    intro hpw ts
    have hpw2 := (List.Perm.pairwise_iff (fun {a b} h => Ne.symm h) h1).mp hpw
    rw [ih1 hpw ts, ih2 hpw2 ts]

theorem replaceAllL_of_not_occurs {pat rep : List Char} :
    ∀ {l : List Char}, occursL pat l = false → replaceAllL pat rep l = l := by
  intro l
  induction l with
  | nil => intro _; exact replaceAllL_nil
  | cons c rest ih =>
    intro h
    rw [occursL, Bool.or_eq_false_iff] at h
    rw [replaceAllL_cons, if_neg, ih h.2]
    rintro ⟨-, hpre⟩
    rw [h.1] at hpre
    exact Bool.noConfusion hpre

/-- Every `regexSafeKey` key is brace-free: braces are themselves regex syntax
characters, so `regexPlainChar` excludes them. -/
theorem regexSafeKey_braceFree {k : List Char} (h : regexSafeKey k = true) :
    braceFree k = true := by
  rw [regexSafeKey, Bool.and_eq_true] at h
  have h1 := h.1
  rw [List.all_eq_true] at h1
  rw [braceFree, List.all_eq_true]
  intro c hc
  have h2 := h1 c hc
  rw [regexPlainChar] at h2
  simp only [Bool.and_eq_true, bne_iff_ne] at h2
  simp only [Bool.and_eq_true, decide_eq_true_eq]
  exact ⟨h2.1.2, h2.2⟩

/-- C8 (amended): over templates that are concatenations of brace-free literal
chunks and `{name}` placeholder tokens, with pairwise-distinct keys on which
the constructed regex is the literal token (`regexSafeKey`: no regex syntax
character, no braced-quantifier shape), `buildHref` rewrites exactly the
placeholder tokens (every `{key}` token with an entry becomes the
percent-encoded, comma-joined-for-arrays value; tokens without an entry stay
verbatim — this is the token-level map `applyEntries`), the result is
independent of the entry processing order, entries whose key has no
placeholder occurrence leave the template unchanged, and the spec's concrete
example evaluates as stated.  Over arbitrary templates the order-independence
part of the claim is false (see the counterexample), and outside the
`regexSafeKey` domain the source's regex is not the literal token at all. -/
theorem c8_buildHref_substitution_amended
    (ts : List HrefTok) (ps : List (String × JsVal))
    (hwf : ∀ t ∈ ts, wfTok t = true)
    (hbf : ∀ kv ∈ ps, regexSafeKey kv.1.toList = true)
    (hnd : List.Pairwise (fun a b => a.1 ≠ b.1) ps) :
    buildHrefL (renderT ts) ps = renderT (applyEntries ts ps) ∧
    (∀ ps2, ps.Perm ps2 →
      buildHrefL (renderT ts) ps = buildHrefL (renderT ts) ps2) ∧
    (∀ (t k : String) (v : JsVal), regexSafeKey k.toList = true →
      occursL ('{' :: (k.toList ++ ['}'])) t.toList = false →
      buildHref t [(k, v)] = t) ∧
    buildHref "/api/swap?amount={amount}&token={token}"
      [("amount", JsVal.str "100"), ("token", JsVal.str "0x1")] =
      "/api/swap?amount=100&token=0x1" := by
  have hbf' : ∀ kv ∈ ps, braceFree kv.1.toList = true := fun kv hkv =>
    regexSafeKey_braceFree (hbf kv hkv)
  refine ⟨buildHrefL_renderT ps ts hwf hbf', ?_, ?_, by decide⟩
  · intro ps2 hperm
    have hbf2 : ∀ kv ∈ ps2, braceFree kv.1.toList = true := fun kv hkv =>
      hbf' kv (hperm.symm.subset hkv)
    rw [buildHrefL_renderT ps ts hwf hbf', buildHrefL_renderT ps2 ts hwf hbf2,
      applyEntries_perm hperm hnd ts]
  · intro t k v _ hno
    show (⟨buildHrefL t.toList [(k, v)]⟩ : String) = t
    have : buildHrefL t.toList [(k, v)] = t.toList := by
      show replaceAllL ('{' :: (k.toList ++ ['}']))
        (encodeURIComponentL (joinVal v).toList) t.toList = t.toList
      exact replaceAllL_of_not_occurs hno
    rw [this]
    cases t
    rfl

/-- C8 (witness): the amended theorem applied to the spec's two-placeholder
swap template. -/
theorem c8_buildHref_substitution_amended_witness :
    buildHrefL
      (renderT [HrefTok.lit "/api/swap?amount=".toList,
        HrefTok.ph "amount".toList, HrefTok.lit "&token=".toList,
        HrefTok.ph "token".toList])
      [("amount", JsVal.str "100"), ("token", JsVal.str "0x1")] =
      renderT (applyEntries
        [HrefTok.lit "/api/swap?amount=".toList, HrefTok.ph "amount".toList,
         HrefTok.lit "&token=".toList, HrefTok.ph "token".toList]
        [("amount", JsVal.str "100"), ("token", JsVal.str "0x1")]) ∧
    buildHrefL
      (renderT [HrefTok.lit "/api/swap?amount=".toList,
        HrefTok.ph "amount".toList, HrefTok.lit "&token=".toList,
        HrefTok.ph "token".toList])
      [("amount", JsVal.str "100"), ("token", JsVal.str "0x1")] =
    buildHrefL
      (renderT [HrefTok.lit "/api/swap?amount=".toList,
        HrefTok.ph "amount".toList, HrefTok.lit "&token=".toList,
        HrefTok.ph "token".toList])
      [("token", JsVal.str "0x1"), ("amount", JsVal.str "100")] := by
  have h := c8_buildHref_substitution_amended
    [HrefTok.lit "/api/swap?amount=".toList, HrefTok.ph "amount".toList,
     HrefTok.lit "&token=".toList, HrefTok.ph "token".toList]
    [("amount", JsVal.str "100"), ("token", JsVal.str "0x1")]
    (by decide) (by decide) (by decide)
  exact ⟨h.1, h.2.1 _ (by decide)⟩

/-- C8 (counterexample): the claim's order-independence is false on the code.
Both keys are `regexSafeKey` (plain letters, so the source's regexes are the
literal tokens `{yx}` and `{b}` and the embedding is the source here), and both
entry lists carry the same key-value pairs (they are permutations of each
other), yet processing `yx` first leaves `{yx}` while processing `b` first
produces `z`: the replacement for `b` synthesises a fresh `{yx}` token out of
the template's surrounding braces, which a later `yx` pass then rewrites. -/
theorem c8_buildHref_order_counterexample :
    regexSafeKey "yx".toList = true ∧ regexSafeKey "b".toList = true ∧
    List.Perm [("yx", JsVal.str "z"), ("b", JsVal.str "y")]
      [("b", JsVal.str "y"), ("yx", JsVal.str "z")] ∧
    buildHref "{{b}x}" [("yx", JsVal.str "z"), ("b", JsVal.str "y")] = "{yx}" ∧
    buildHref "{{b}x}" [("b", JsVal.str "y"), ("yx", JsVal.str "z")] = "z" ∧
    buildHref "{{b}x}" [("yx", JsVal.str "z"), ("b", JsVal.str "y")] ≠
      buildHref "{{b}x}" [("b", JsVal.str "y"), ("yx", JsVal.str "z")] := by
  exact ⟨by decide, by decide, by decide, by decide, by decide, by decide⟩

/-- C9 (counterexample): the claim is false as stated.  The key `abc` is
`regexSafeKey` (plain letters, so the source's regex is the literal token
`{abc}` and the embedding is the source here), the template `"{{abc}}"`
contains the literal token `{abc}`, the value `"abc"` contains no brace, yet
after substitution the output is exactly `"{abc}"` again — the replacement
text together with the template's outer braces re-forms the placeholder
token, and `extractParams` reports the key from that remaining literal
token. -/
theorem c9_substitution_elimination_counterexample :
    regexSafeKey "abc".toList = true ∧
    occursL ('{' :: ("abc".toList ++ ['}'])) "{{abc}}".toList = true ∧
    braceFree "abc".toList = true ∧
    buildHref "{{abc}}" [("abc", JsVal.str "abc")] = "{abc}" ∧
    occursL ('{' :: ("abc".toList ++ ['}']))
      (buildHref "{{abc}}" [("abc", JsVal.str "abc")]).toList = true ∧
    extractParams (buildHref "{{abc}}" [("abc", JsVal.str "abc")]) = ["abc"] := by
  exact ⟨by decide, by decide, by decide, by decide, by decide, by decide⟩

/-- C9 (amended): over templates that are concatenations of brace-free literal
chunks and `{name}` placeholder tokens, and keys on which the constructed
regex is the literal token (`regexSafeKey`), substitution does eliminate every
placeholder it has a value for: no literal `{key}` token remains in the output
of `buildHref` (in particular when the template contained `{key}` and the
value is brace-free, as the claim assumes). -/
theorem c9_substitution_elimination_amended
    (ts : List HrefTok) (k v : String)
    (hwf : ∀ t ∈ ts, wfTok t = true)
    (hk : regexSafeKey k.toList = true)
    (hv : braceFree v.toList = true)
    (hcont : occursL ('{' :: (k.toList ++ ['}'])) (renderT ts) = true) :
    occursL ('{' :: (k.toList ++ ['}']))
      (buildHrefL (renderT ts) [(k, JsVal.str v)]) = false := by
  have hkb : braceFree k.toList = true := regexSafeKey_braceFree hk
  have hone : buildHrefL (renderT ts) [(k, JsVal.str v)] =
      renderT (applyEntries ts [(k, JsVal.str v)]) :=
    buildHrefL_renderT [(k, JsVal.str v)] ts hwf
      (by intro kv hkv; simp at hkv; rw [hkv]; exact hkb)
  rw [hone]
  show occursL ('{' :: (k.toList ++ ['}']))
    (renderT (ts.map (substTok k.toList
      (encodeURIComponentL (joinVal (JsVal.str v)).toList)))) = false
  apply occursL_renderT hkb
  · intro t ht
    simp only [List.mem_map] at ht
    obtain ⟨t0, ht0, hs⟩ := ht
    rw [← hs]
    exact wfTok_substTok (braceFree_encodeURIComponentL _) (hwf t0 ht0)
  · intro n hn
    exact (ph_mem_map_substTok hn).1

/-- C9 (witness): the amended theorem applied to the template
`/api/tip?amount={amount}`. -/
theorem c9_substitution_elimination_amended_witness :
    occursL ('{' :: ("amount".toList ++ ['}']))
      (buildHrefL
        (renderT [HrefTok.lit "/api/tip?amount=".toList,
          HrefTok.ph "amount".toList])
        [("amount", JsVal.str "5")]) = false :=
  c9_substitution_elimination_amended
    [HrefTok.lit "/api/tip?amount=".toList, HrefTok.ph "amount".toList]
    "amount" "5" (by decide) (by decide) (by decide) (by decide)

theorem joinComma_pair {e1 e2 : String} :
    joinComma [e1, e2] = e1 ++ ", " ++ e2 := rfl

/-- C4: `validateParameterValues` checks every parameter and joins all error
messages into one combined failure message.  On the spec's required `amount`
parameter with `min=1`, `max=100`: value `"0"` yields exactly the single
message `Amount must be at least 1`; value `"abc"` yields `Amount must be a
number`; an omitted value yields `Amount is required`; and in general two
violations across two parameters produce the single comma-joined message
containing both (never failing fast on the first).  `regexTest` is the
abstracted JS regex engine, which none of these paths consult. -/
theorem c4_validateParameterValues_collects_all
    (regexTest : String → String → Bool) :
    validateParameterValues regexTest [amountP]
      (fun n => if n = "amount" then some (JsVal.str "0") else none) =
      .fail ["Amount must be at least 1"] ∧
    validateParameterValues regexTest [amountP]
      (fun n => if n = "amount" then some (JsVal.str "abc") else none) =
      .fail ["Amount must be a number"] ∧
    validateParameterValues regexTest [amountP] (fun _ => none) =
      .fail ["Amount is required"] ∧
    validateParameterValues regexTest [amountP, recipientP]
      (fun n => if n = "amount" then some (JsVal.str "abc")
        else if n = "recipient" then some (JsVal.str "xyz") else none) =
      .fail ["Amount must be a number, Recipient must be a valid Ethereum address"] ∧
    (∀ (p1 p2 : TypedActionParameter) (vals : String → Option JsVal)
        (e1 e2 : String),
      errorsForParam regexTest p1 (vals p1.name) = [e1] →
      errorsForParam regexTest p2 (vals p2.name) = [e2] →
      validateParameterValues regexTest [p1, p2] vals =
        .fail [e1 ++ ", " ++ e2]) := by
  refine ⟨by with_unfolding_all rfl, by with_unfolding_all rfl,
    by with_unfolding_all rfl, by with_unfolding_all rfl, ?_⟩
  intro p1 p2 vals e1 e2 h1 h2
  rw [validateParameterValues]
  simp only [List.flatMap_cons, List.flatMap_nil, h1, h2, List.append_nil]
  rw [if_neg (by simp)]
  simp only [List.singleton_append]
  rw [joinComma_pair]

/-- C4 (witness): the combined-message part of the theorem applied to the
concrete two-parameter instance of the spec. -/
theorem c4_validateParameterValues_collects_all_witness :
    validateParameterValues (fun _ _ => true) [amountP, recipientP]
      (fun n => if n = "amount" then some (JsVal.str "abc")
        else if n = "recipient" then some (JsVal.str "xyz") else none) =
      .fail ["Amount must be a number" ++ ", " ++
        "Recipient must be a valid Ethereum address"] :=
  (c4_validateParameterValues_collects_all (fun _ _ => true)).2.2.2.2
    amountP recipientP
    (fun n => if n = "amount" then some (JsVal.str "abc")
      else if n = "recipient" then some (JsVal.str "xyz") else none)
    "Amount must be a number" "Recipient must be a valid Ethereum address"
    (by with_unfolding_all rfl) (by with_unfolding_all rfl)

theorem errorsForParam_arr_tail (regexTest : String → String → Bool)
    (p : TypedActionParameter) (v : String) (rest1 rest2 : List String) :
    errorsForParam regexTest p (some (JsVal.arr (v :: rest1))) =
    errorsForParam regexTest p (some (JsVal.arr (v :: rest2))) := by
  rw [errorsForParam, errorsForParam]
  simp [List.head?]

/-- C10: when a parameter's submitted value is an array, every check other than
the required/non-empty test sees only the first element — whether the values
validate, and every error message produced, is invariant under replacing
everything after the head of the array.  (The required check only
distinguishes the empty array, and both sides here are non-empty; on success
the source returns the submitted values unchanged, tail included.) -/
theorem c10_array_values_only_first_element_checked
    (regexTest : String → String → Bool)
    (ps : List TypedActionParameter) (vals : String → Option JsVal)
    (k : String) (v : String) (rest1 rest2 : List String) :
    (validateParameterValues regexTest ps
      (updateVals vals k (JsVal.arr (v :: rest1)))).isOk =
    (validateParameterValues regexTest ps
      (updateVals vals k (JsVal.arr (v :: rest2)))).isOk ∧
    (validateParameterValues regexTest ps
      (updateVals vals k (JsVal.arr (v :: rest1)))).errorIssues =
    (validateParameterValues regexTest ps
      (updateVals vals k (JsVal.arr (v :: rest2)))).errorIssues := by
  have hp : ∀ p : TypedActionParameter,
      errorsForParam regexTest p
        (updateVals vals k (JsVal.arr (v :: rest1)) p.name) =
      errorsForParam regexTest p
        (updateVals vals k (JsVal.arr (v :: rest2)) p.name) := by
    intro p
    rw [updateVals, updateVals]
    by_cases h : p.name = k
    · rw [if_pos h, if_pos h]
      exact errorsForParam_arr_tail regexTest p v rest1 rest2
    · rw [if_neg h, if_neg h]
  rw [validateParameterValues, validateParameterValues]
  have he : (ps.flatMap fun p => errorsForParam regexTest p
        (updateVals vals k (JsVal.arr (v :: rest1)) p.name)) =
      ps.flatMap fun p => errorsForParam regexTest p
        (updateVals vals k (JsVal.arr (v :: rest2)) p.name) :=
    congrArg ps.flatMap (funext fun p => hp p)
  rw [he]
  by_cases hnil : (ps.flatMap fun p => errorsForParam regexTest p
      (updateVals vals k (JsVal.arr (v :: rest2)) p.name)) = []
  · rw [if_pos hnil, if_pos hnil]
    exact ⟨rfl, rfl⟩
  · rw [if_neg hnil, if_neg hnil]
    exact ⟨rfl, rfl⟩

/-- C6: `TransactionResponseSchema` validation fails (with the refinement
message) for every response carrying neither a `transaction` nor a non-empty
`transactions` list; it accepts a response carrying both (when the descriptors
are structurally valid); and whenever `transactions` is present the execution
machine's normalisation consumes that list — the single `transaction` is
ignored. -/
theorem c6_transactionResponse_presence_and_preference
    (r : TransactionResponse) :
    (r.transaction = none →
      (r.transactions = none ∨ r.transactions = some []) →
      validateTransactionResponse r = .fail [responseRefineMsg]) ∧
    (∀ t l, r.transaction = some t → r.transactions = some l → l ≠ [] →
      txIssues t = [] → (∀ x ∈ l, txIssues x = []) →
      validateTransactionResponse r = .ok r) ∧
    (∀ l, r.transactions = some l → normalizeTransactions r = l) := by
  refine ⟨?_, ?_, ?_⟩
  · intro h1 h2
    rcases h2 with h2 | h2 <;>
      simp [validateTransactionResponse, transactionResponseIssues,
        txRespRefine, h1, h2]
  · intro t l h1 h2 hne ht hl
    have hfl : l.flatMap txIssues = [] := by
      rw [List.flatMap_eq_nil_iff]
      exact hl
    simp [validateTransactionResponse, transactionResponseIssues,
      txRespRefine, h1, h2, ht, hfl]
  · intro l h
    simp [normalizeTransactions, h]

/-- C6 (witness): a response carrying both a single transaction and a
non-empty batch is accepted, and the batch is what the machine consumes. -/
theorem c6_transactionResponse_presence_and_preference_witness :
    validateTransactionResponse respBoth = .ok respBoth ∧
    normalizeTransactions respBoth = [txBatchB] := by
  constructor
  · exact (c6_transactionResponse_presence_and_preference respBoth).2.1
      txSingleA [txBatchB] rfl rfl (by decide) (by decide) (by decide)
  · exact (c6_transactionResponse_presence_and_preference respBoth).2.2
      [txBatchB] rfl

theorem mem_actionButtonIssues {s : String} {b : ActionButton}
    (h : s ∈ actionButtonIssues b) : s = strMinMsg ∨ s = strMaxMsg 50 := by
  rw [actionButtonIssues] at h
  rcases List.mem_append.mp h with h | h <;> split_ifs at h <;> simp at h <;>
    simp [h]

theorem mem_linkedActionIssues {s : String} {a : LinkedAction}
    (h : s ∈ linkedActionIssues a) :
    s = strMinMsg ∨ s = strMaxMsg 50 ∨ s = unionMsg := by
  rw [linkedActionIssues] at h
  rcases List.mem_append.mp h with h | h
  · rcases List.mem_append.mp h with h | h <;> split_ifs at h <;>
      simp at h <;> simp [h]
  · match hp : a.parameters with
    | some ps =>
      rw [hp] at h
      simp only [List.mem_flatMap] at h
      obtain ⟨p, -, hin⟩ := h
      split_ifs at hin <;> simp at hin
      simp [hin]
    | none => rw [hp] at h; simp at h

theorem mem_actionLinksIssues {s : String} {la : ActionLinks}
    (h : s ∈ actionLinksIssues la) :
    s = arrayMinMsg ∨ s = strMinMsg ∨ s = strMaxMsg 50 ∨ s = unionMsg := by
  rw [actionLinksIssues] at h
  rcases List.mem_append.mp h with h | h
  · split_ifs at h <;> simp at h
    simp [h]
  · simp only [List.mem_flatMap] at h
    obtain ⟨a, -, hin⟩ := h
    exact Or.inr (mem_linkedActionIssues hin)

/-- Every message the base (structural) checks of `ActionMetadataSchema` can
produce. -/
theorem mem_actionMetadataBaseIssues_pool (m : ActionMetadata) :
    ∀ s ∈ actionMetadataBaseIssues m, s = strMinMsg ∨ s = strMaxMsg 50 ∨
      s = strMaxMsg 200 ∨ s = strMaxMsg 1000 ∨ s = iconMsg ∨
      s = arrayMinMsg ∨ s = unionMsg := by
  intro s h
  rw [actionMetadataBaseIssues] at h
  rcases List.mem_append.mp h with h | h
  · rcases List.mem_append.mp h with h | h
    · rcases List.mem_append.mp h with h | h
      · rcases List.mem_append.mp h with h | h
        · rcases List.mem_append.mp h with h | h
          · split_ifs at h <;> simp at h <;> tauto
          · split_ifs at h <;> simp at h <;> tauto
        · split_ifs at h <;> simp at h <;> tauto
      · revert h
        generalize m.label = o
        cases o with
        | none => intro h; simp at h
        | some lb =>
          intro h
          simp only [List.mem_ite_nil_right, List.mem_singleton] at h
          tauto
    · revert h
      generalize m.actions = o
      cases o with
      | none => intro h; simp at h
      | some bs =>
        intro h
        simp only [List.mem_flatMap] at h
        obtain ⟨b, -, hin⟩ := h
        rcases mem_actionButtonIssues hin with h | h <;> tauto
  · revert h
    generalize m.links = o
    cases o with
    | none => intro h; simp at h
    | some la =>
      intro h
      rcases mem_actionLinksIssues h with h | h | h | h <;> tauto

/-- The refinement message of `ActionMetadataSchema` can never arise from the
base (structural) checks: a base failure is always of a different class. -/
theorem metadataRefineMsg_not_mem_base (m : ActionMetadata) :
    metadataRefineMsg ∉ actionMetadataBaseIssues m := by
  intro h
  rcases mem_actionMetadataBaseIssues_pool m metadataRefineMsg h with
    h1 | h1 | h1 | h1 | h1 | h1 | h1 <;> exact absurd h1 (by decide)

/-- C7 (counterexample): the claim is false as stated.  This metadata has an
absent legacy `actions` list and an empty `links.actions` (both
"empty-or-absent"), and validation does fail — but with zod's array-minimum
structural error from `ActionLinksSchema.min(1)`, not with an error of the
"must have at least one action" class: the refinement never runs because the
base parse already failed. -/
theorem c7_metadata_counterexample :
    validateActionMetadata
      { type := none, title := "Tip", icon := "https://example.com/icon.png",
        description := "Send a tip", label := none, actions := none,
        links := some { actions := [] }, disabled := none, error := none } =
      .fail [arrayMinMsg] ∧
    (validateActionMetadata
      { type := none, title := "Tip", icon := "https://example.com/icon.png",
        description := "Send a tip", label := none, actions := none,
        links := some { actions := [] }, disabled := none, error := none }).isOk
      = false ∧
    metadataRefineMsg ∉
      (validateActionMetadata
        { type := none, title := "Tip", icon := "https://example.com/icon.png",
          description := "Send a tip", label := none, actions := none,
          links := some { actions := [] }, disabled := none,
          error := none }).errorIssues := by
  exact ⟨by decide, by decide, by decide⟩

/-- C7 (amended): on otherwise structurally valid metadata, validation fails
with the "must have at least one action" refinement message exactly when the
legacy `actions` list is empty-or-absent and `links` is absent; it succeeds
when at least one of the two lists is present and non-empty; and a present
`links` object with an empty `actions` array also fails, but with a structural
array-minimum error — never with the refinement message. -/
theorem c7_metadata_at_least_one_action_amended (m : ActionMetadata) :
    (actionMetadataBaseIssues m = [] →
      (m.actions = none ∨ m.actions = some []) → m.links = none →
      validateActionMetadata m = .fail [metadataRefineMsg]) ∧
    (actionMetadataBaseIssues m = [] →
      ((∃ bs, m.actions = some bs ∧ bs ≠ []) ∨
        (∃ la, m.links = some la ∧ la.actions ≠ [])) →
      validateActionMetadata m = .ok m) ∧
    (∀ la, m.links = some la → la.actions = [] →
      (validateActionMetadata m).isOk = false ∧
      metadataRefineMsg ∉ (validateActionMetadata m).errorIssues) := by
  refine ⟨?_, ?_, ?_⟩
  · intro hbase hact hlinks
    have href : actionMetadataRefine m = false := by
      rcases hact with h | h <;> simp [actionMetadataRefine, h, hlinks]
    rw [validateActionMetadata]
    simp only [hbase, if_pos rfl, href]
    rfl
  · intro hbase hne
    have href : actionMetadataRefine m = true := by
      rcases hne with ⟨bs, hbs, hne⟩ | ⟨la, hla, hne⟩
      · simp [actionMetadataRefine, hbs, List.length_pos, hne]
      · simp [actionMetadataRefine, hla, List.length_pos, hne]
    rw [validateActionMetadata]
    simp only [hbase, if_pos rfl, href]
    rfl
  · intro la hla hempty
    have hmem : arrayMinMsg ∈ actionMetadataBaseIssues m := by
      rw [actionMetadataBaseIssues]
      refine List.mem_append.mpr (Or.inr ?_)
      rw [hla]
      simp [actionLinksIssues, hempty]
    have hne : actionMetadataBaseIssues m ≠ [] := by
      intro h; rw [h] at hmem; simp at hmem
    rw [validateActionMetadata]
    simp only [if_neg hne]
    exact ⟨rfl, metadataRefineMsg_not_mem_base m⟩

/-- C7 (witness): the amended theorem applied to a concrete metadata value
with an absent `links` and an empty legacy `actions` list. -/
theorem c7_metadata_at_least_one_action_amended_witness :
    validateActionMetadata
      { type := none, title := "Tip", icon := "https://example.com/icon.png",
        description := "Send a tip", label := none, actions := some [],
        links := none, disabled := none, error := none } =
      .fail [metadataRefineMsg] :=
  (c7_metadata_at_least_one_action_amended _).1 (by decide)
    (Or.inr rfl) rfl

/-- C5 (counterexample): the claim is false on the enhanced
`createAction.handleRequest` the spec's engine describes.  For a schema-valid
request whose action matches no legacy entry, the call does not fail with a
dispatch error: the user handler is invoked with the request's full context
(`.ok ctx`). -/
theorem c5_unmatched_action_counterexample :
    validateTransactionRequest reqOther = .ok reqOther ∧
    findSelectedAction [btnGo] reqOther = none ∧
    handleRequestEnhanced (some [btnGo]) reqOther =
      .ok ⟨"0xaaaaaaaaaaaaaaaaaaaaaaaaaaaaaaaaaaaaaaaa", "other", none, none⟩ := by
  exact ⟨by decide, by decide, by rfl⟩

/-- C5 (amended): for every schema-valid request matching no legacy entry, the
legacy `handleRequest` fails with the dispatch error `Invalid action selected`
and never invokes the handler, while the enhanced `handleRequest` silently
passes the request through to the handler with its full context. -/
theorem c5_unmatched_action_amended
    (acts : List ActionButton) (request : TransactionRequest)
    (hvalid : transactionRequestIssues request = [])
    (hnomatch : findSelectedAction acts request = none) :
    handleRequestLegacy acts request = .error "Invalid action selected" ∧
    handleRequestEnhanced (some acts) request =
      .ok ⟨request.account, request.action, request.input, request.data⟩ := by
  have hok : validateTransactionRequest request = .ok request := by
    simp [validateTransactionRequest, hvalid]
  constructor
  · rw [handleRequestLegacy, hok, hnomatch]
  · rw [handleRequestEnhanced, hok, hnomatch]

/-- C5 (witness): the amended theorem applied to the concrete button and
request of the counterexample. -/
theorem c5_unmatched_action_amended_witness :
    handleRequestLegacy [btnGo] reqOther = .error "Invalid action selected" ∧
    handleRequestEnhanced (some [btnGo]) reqOther =
      .ok ⟨reqOther.account, reqOther.action, reqOther.input, reqOther.data⟩ :=
  c5_unmatched_action_amended [btnGo] reqOther (by decide) (by decide)

/-- C1: evaluation of the code at the failing input.  The response body fails
`validateTransactionResponse` (its descriptor's `to` is not a valid address),
yet `execute` hands that very descriptor to the wallet adapter and settles in
`success` with the broadcast hash — it never fails with an
`Invalid response: …` error and never withholds the adapter call, because the
imported validator is never invoked on this code path. -/
theorem c1_execute_skips_response_validation :
    validateTransactionResponse badBody = .fail ["Invalid to address"] ∧
    execute okAdapter (.ok badBody) =
      { status := .success, txHash := some "0xbroadcast", errorMsg := none,
        signCalls := [badTx] } := by
  exact ⟨by decide, by rfl⟩

/-- C2 (counterexample): with `transactions = [A, B]`, A succeeding with hash
`0xhashA` and B failing, the adapter is indeed invoked for A strictly before B
and the run ends in `error` — but the reported transaction hash is not A's:
`execute` clears `txHash` at the start of the run and assigns it only after
the whole sequence succeeds, so it stays `null`. -/
theorem c2_last_hash_counterexample :
    execute abAdapter (.ok abBody) =
      { status := .error, txHash := none, errorMsg := some "User rejected",
        signCalls := [txFirstA, txSecondB] } ∧
    (execute abAdapter (.ok abBody)).txHash ≠ some "0xhashA" := by
  constructor
  · decide
  · decide

/-- C2 (amended): for every response whose list is `[A, B]`, with a connected
adapter that signs A successfully and fails on B, `execute` invokes the
adapter for A strictly before B (the call trace is exactly `[A, B]`), ends in
state `error` with B's error message — and the reported `txHash` is `null`,
not A's hash: the hash of A lives only in a local variable and is published
neither on failure nor mid-sequence. -/
theorem c2_sequential_then_error_amended
    (A B : EVMTransaction) (hA e addr : String) (ad : MlinkAdapter)
    (body : TransactionResponse)
    (hconn : ad.isConnected = true)
    (haddr : ad.getAddress = some addr) (hne : addr ≠ "")
    (hsA : ad.signAndSendTransaction A = .ok hA)
    (hsB : ad.signAndSendTransaction B = .error e)
    (hbody : body.transactions = some [A, B]) :
    execute ad (.ok body) =
      { status := .error, txHash := none, errorMsg := some e,
        signCalls := [A, B] } := by
  have hnorm : normalizeTransactions body = [A, B] := by
    simp [normalizeTransactions, hbody]
  have hgetD : ad.getAddress.getD "" = addr := by simp [haddr]
  have hneed : (!ad.isConnected || ad.getAddress.getD "" == "") = false := by
    rw [hconn, hgetD]
    simp [hne]
  rw [execute]
  simp only [hneed, if_neg Bool.false_ne_true]
  rw [hnorm]
  simp only [if_neg (by simp : ¬([A, B] : List EVMTransaction) = [])]
  simp only [runTxs, hsA, hsB]
  rfl

/-- C2 (witness): the amended theorem applied to the concrete trace of the
counterexample. -/
theorem c2_sequential_then_error_amended_witness :
    execute abAdapter (.ok abBody) =
      { status := .error, txHash := none, errorMsg := some "User rejected",
        signCalls := [txFirstA, txSecondB] } :=
  c2_sequential_then_error_amended txFirstA txSecondB "0xhashA" "User rejected"
    "0xuser" abAdapter abBody rfl rfl (by decide) (by rfl) (by rfl) rfl

theorem charOfNat_toNat (c : Char) : Char.ofNat c.toNat = c := by
  have hv : c.toNat.isValidChar := c.valid
  rw [Char.ofNat, dif_pos hv]
  cases c with
  | mk v hval =>
    apply Char.ext
    simp only [Char.ofNatAux, Char.toNat, UInt32.ofNat']
    cases v with
    | mk bv =>
      simp only [UInt32.toNat]
      congr 1

theorem toList_append (s t : String) : (s ++ t).toList = s.toList ++ t.toList :=
  String.data_append s t

/-- Characters that can appear in `encodeURIComponent` output: unescaped
characters, the percent sign, and uppercase hex digits. -/
theorem mem_encodeURIComponentL {c : Char} {l : List Char}
    (h : c ∈ encodeURIComponentL l) :
    isUriUnescaped c = true ∨ c = '%' ∨ c ∈ "0123456789ABCDEF".toList := by
  rw [encodeURIComponentL] at h
  simp only [List.mem_flatMap] at h
  obtain ⟨x, -, hx⟩ := h
  by_cases hu : isUriUnescaped x = true
  · rw [if_pos hu] at hx
    simp at hx
    subst hx
    exact Or.inl hu
  · rw [if_neg hu] at hx
    simp only [List.mem_flatMap] at hx
    obtain ⟨b, -, hb⟩ := hx
    simp only [pctByte, List.mem_cons] at hb
    rcases hb with h1 | h1 | h1 | h1
    · exact Or.inr (Or.inl h1)
    · subst h1
      refine Or.inr (Or.inr ?_)
      rw [hexDigitChar]
      by_cases hlt : b / 16 < 16
      · have : ("0123456789ABCDEF".toList).length = 16 := by decide
        rw [List.getD_eq_getElem?_getD, List.getElem?_eq_getElem (by omega)]
        simp [List.getElem_mem]
      · rw [List.getD_eq_default]
        · decide
        · have : ("0123456789ABCDEF".toList).length = 16 := by decide
          omega
    · subst h1
      refine Or.inr (Or.inr ?_)
      rw [hexDigitChar]
      by_cases hlt : b % 16 < 16
      · have : ("0123456789ABCDEF".toList).length = 16 := by decide
        rw [List.getD_eq_getElem?_getD, List.getElem?_eq_getElem (by omega)]
        simp [List.getElem_mem]
      · rw [List.getD_eq_default]
        · decide
        · have : ("0123456789ABCDEF".toList).length = 16 := by decide
          omega
    · simp at h1

/-- None of the URL metacharacters `# & = ? + :` ever appears in
`encodeURIComponent` output. -/
theorem enc_no_meta {l : List Char} {d : Char}
    (hd : d = '#' ∨ d = '&' ∨ d = '=' ∨ d = '?' ∨ d = '+' ∨ d = ':') :
    d ∉ encodeURIComponentL l := by
  intro h
  rcases mem_encodeURIComponentL h with h1 | h1 | h1 <;>
    rcases hd with rfl | rfl | rfl | rfl | rfl | rfl <;> revert h1 <;> decide

theorem pctDecode2_hex {h1 h2 : Char} {r2 : List Char} {a b : Nat}
    (ha : hexVal h1 = some a) (hb : hexVal h2 = some b) :
    pctDecode2 (h1 :: h2 :: r2) = some (16 * a + b, r2) := by
  rw [pctDecode2, ha, hb]
  rfl

theorem pctDecode2_some_len {l : List Char} {p : Nat × List Char}
    (h : pctDecode2 l = some p) : p.2.length + 2 = l.length := by
  match l with
  | [] => exact absurd h (by rw [show pctDecode2 [] = none from rfl]; simp)
  | [x] => exact absurd h (by rw [show pctDecode2 [x] = none from rfl]; simp)
  | x :: y :: r2 =>
    rw [pctDecode2] at h
    rcases ha : hexVal x with _ | a
    · rw [ha] at h
      exact absurd h (by simp)
    · rcases hb : hexVal y with _ | b
      · rw [ha, hb] at h
        exact absurd h (by simp)
      · rw [ha, hb] at h
        have h2 := Option.some.inj h
        rw [← h2]
        simp

theorem formBytesGo_fuel :
    ∀ (f1 : Nat) (l : List Char) (f2 : Nat), l.length ≤ f1 → l.length ≤ f2 →
      formBytesGo f1 l = formBytesGo f2 l := by
  intro f1
  induction f1 with
  | zero =>
    intro l f2 h1 _
    match l with
    | [] => cases f2 <;> rfl
    | c :: rest => simp at h1
  | succ g1 ih =>
    intro l f2 h1 h2
    match l with
    | [] => cases f2 <;> rfl
    | c :: rest =>
      match f2 with
      | 0 => simp at h2
      | g2 + 1 =>
        simp only [List.length_cons, Nat.add_le_add_iff_right] at h1 h2
        rw [formBytesGo, formBytesGo]
        by_cases hp : c = '+'
        · rw [if_pos hp, if_pos hp, ih rest g2 h1 h2]
        · rw [if_neg hp, if_neg hp]
          by_cases hpc : c = '%'
          · rw [if_pos hpc, if_pos hpc]
            rcases hpd : pctDecode2 rest with _ | p
            · rw [Option.elim_none, Option.elim_none, ih rest g2 h1 h2]
            · rw [Option.elim_some, Option.elim_some]
              have hlen := pctDecode2_some_len hpd
              exact congrArg (p.1 :: ·) (ih p.2 g2 (by omega) (by omega))
          · rw [if_neg hpc, if_neg hpc, ih rest g2 h1 h2]

theorem formBytes_cons_plain {c : Char} {rest : List Char}
    (hp : c ≠ '+') (hpc : c ≠ '%') :
    formBytes (c :: rest) = utf8Bytes c ++ formBytes rest := by
  rw [formBytes, List.length_cons, formBytesGo, if_neg hp, if_neg hpc, formBytes]

theorem formBytes_pct {h1 h2 : Char} {r2 : List Char} {a b : Nat}
    (ha : hexVal h1 = some a) (hb : hexVal h2 = some b) :
    formBytes ('%' :: h1 :: h2 :: r2) = (16 * a + b) :: formBytes r2 := by
  rw [formBytes, List.length_cons, List.length_cons, List.length_cons,
    formBytesGo, if_neg (by decide), if_pos rfl, pctDecode2_hex ha hb,
    Option.elim_some]
  show (16 * a + b) :: formBytesGo (r2.length + 1 + 1) r2 = _
  rw [formBytesGo_fuel (r2.length + 1 + 1) r2 r2.length (by omega) (le_refl _),
    formBytes]

theorem pctBytesStrict_cons_plain {c : Char} {rest : List Char}
    (hpc : c ≠ '%') :
    pctBytesStrict (c :: rest) =
      (pctBytesStrict rest).map (fun bs => utf8Bytes c ++ bs) := by
  rw [pctBytesStrict, List.length_cons, pctBytesStrictGo, if_neg hpc,
    pctBytesStrict]

theorem utf8DecodeLossy_cons_ascii {b : Nat} {r : List Nat} (hb : b < 128) :
    utf8DecodeLossy (b :: r) = Char.ofNat b :: utf8DecodeLossy r := by
  rw [utf8DecodeLossy, List.length_cons, utf8DecodeLossyGo, if_pos hb,
    utf8DecodeLossy]

theorem utf8DecodeStrict_cons_ascii {b : Nat} {r : List Nat} (hb : b < 128) :
    utf8DecodeStrict (b :: r) =
      (utf8DecodeStrict r).map (Char.ofNat b :: ·) := by
  rw [utf8DecodeStrict, List.length_cons, utf8DecodeStrictGo, if_pos hb,
    utf8DecodeStrict]

theorem utf8Bytes_ascii {c : Char} (h : c.toNat < 128) :
    utf8Bytes c = [c.toNat] := by
  rw [utf8Bytes]
  simp only [if_pos h]

theorem hexVal_hexDigitChar {n : Nat} (h : n < 16) :
    hexVal (hexDigitChar n) = some n := by
  interval_cases n <;> decide

/-- Form-urlencoded decoding inverts `encodeURIComponent` on ASCII input. -/
theorem formBytes_encodeURIComponentL :
    ∀ {l : List Char}, (∀ c ∈ l, c.toNat < 128) →
      formBytes (encodeURIComponentL l) = l.map Char.toNat := by
  intro l
  induction l with
  | nil => intro _; rfl
  | cons c l2 ih =>
    intro ha
    have hac : c.toNat < 128 := ha c (by simp)
    have hrest := ih fun x hx => ha x (by simp [hx])
    rw [encodeURIComponentL, List.flatMap_cons]
    rw [show (List.flatMap l2 fun c =>
      if isUriUnescaped c then [c] else (utf8Bytes c).flatMap pctByte) =
        encodeURIComponentL l2 from rfl]
    by_cases hu : isUriUnescaped c = true
    · rw [if_pos hu]
      have hplus : c ≠ '+' := by
        intro h; subst h; exact absurd hu (by decide)
      have hpct : c ≠ '%' := by
        intro h; subst h; exact absurd hu (by decide)
      rw [List.singleton_append, formBytes_cons_plain hplus hpct,
        utf8Bytes_ascii hac, hrest]
      rfl
    · rw [if_neg hu, utf8Bytes_ascii hac]
      rw [show ([c.toNat].flatMap pctByte) = pctByte c.toNat from by
        simp [List.flatMap_cons]]
      rw [pctByte]
      have hdiv : c.toNat / 16 < 16 := by omega
      have hmod : c.toNat % 16 < 16 := by omega
      rw [show ('%' :: [hexDigitChar (c.toNat / 16), hexDigitChar (c.toNat % 16)]) ++
        encodeURIComponentL l2 =
        '%' :: hexDigitChar (c.toNat / 16) :: hexDigitChar (c.toNat % 16) ::
          encodeURIComponentL l2 from rfl]
      rw [formBytes_pct (hexVal_hexDigitChar hdiv) (hexVal_hexDigitChar hmod)]
      rw [hrest]
      have : 16 * (c.toNat / 16) + c.toNat % 16 = c.toNat := by omega
      rw [this]
      rfl

theorem utf8DecodeLossy_map_toNat :
    ∀ {l : List Char}, (∀ c ∈ l, c.toNat < 128) →
      utf8DecodeLossy (l.map Char.toNat) = l := by
  intro l
  induction l with
  | nil => intro _; rfl
  | cons c l2 ih =>
    intro ha
    rw [List.map_cons, utf8DecodeLossy_cons_ascii (ha c (by simp)),
      charOfNat_toNat, ih fun x hx => ha x (by simp [hx])]

/-- `URLSearchParams` decoding inverts `encodeURIComponent` on ASCII input. -/
theorem formDecodeL_encodeURIComponentL {l : List Char}
    (ha : ∀ c ∈ l, c.toNat < 128) :
    formDecodeL (encodeURIComponentL l) = l := by
  rw [formDecodeL, formBytes_encodeURIComponentL ha,
    utf8DecodeLossy_map_toNat ha]

theorem pctBytesStrict_no_pct :
    ∀ {l : List Char}, (∀ c ∈ l, c.toNat < 128) → '%' ∉ l →
      pctBytesStrict l = some (l.map Char.toNat) := by
  intro l
  induction l with
  | nil => intro _ _; rfl
  | cons c l2 ih =>
    intro ha hn
    have hc : c ≠ '%' := fun h => hn (by simp [h])
    rw [pctBytesStrict_cons_plain hc,
      ih (fun x hx => ha x (by simp [hx])) (fun h => hn (by simp [h])),
      utf8Bytes_ascii (ha c (by simp))]
    rfl

theorem utf8DecodeStrict_map_toNat :
    ∀ {l : List Char}, (∀ c ∈ l, c.toNat < 128) →
      utf8DecodeStrict (l.map Char.toNat) = some l := by
  intro l
  induction l with
  | nil => intro _; rfl
  | cons c l2 ih =>
    intro ha
    rw [List.map_cons, utf8DecodeStrict_cons_ascii (ha c (by simp)),
      ih fun x hx => ha x (by simp [hx]), charOfNat_toNat]
    rfl

/-- `decodeURIComponent` is the identity on percent-free ASCII strings. -/
theorem decodeURIComponentL_no_pct {l : List Char}
    (ha : ∀ c ∈ l, c.toNat < 128) (hn : '%' ∉ l) :
    decodeURIComponentL l = some l := by
  rw [decodeURIComponentL, pctBytesStrict_no_pct ha hn]
  exact utf8DecodeStrict_map_toNat ha

/-- A separator-free list splits into one piece. -/
theorem splitOn_no_sep {t : Char} :
    ∀ {l : List Char}, t ∉ l → splitOn t l = [l] := by
  intro l
  induction l with
  | nil => intro _; rfl
  | cons c rest ih =>
    intro hn
    have hc : ¬c = t := fun h => hn (by simp [h])
    have hr : t ∉ rest := fun h => hn (by simp [h])
    rw [splitOn, List.foldr_cons, show List.foldr _ [[]] rest = splitOn t rest
      from rfl, ih hr, if_neg hc]

theorem splitAtFirst_action (X : List Char) :
    splitAtFirst '=' ("action=".toList ++ X) = some ("action".toList, X) := rfl

theorem urlParseOkL_wrapper (X : List Char) :
    urlParseOkL ("https://blink.mantle.xyz/blink?action=".toList ++ X) =
      true := rfl

theorem queryOfL_wrapper (X : List Char) :
    queryOfL ("https://blink.mantle.xyz/blink?action=".toList ++ X) =
      ("action=".toList ++ X).takeWhile fun c => c ≠ '#' := rfl

theorem spPairs_wrapper {X : List Char} (hn : '&' ∉ X) :
    spPairs ("action=".toList ++ X) = [("action".toList, X)] := by
  have hq : '&' ∉ "action=".toList ++ X := by
    intro h
    rcases List.mem_append.mp h with h | h
    · revert h; decide
    · exact hn h
  have hne : ¬("action=".toList ++ X = []) := by simp
  rw [spPairs, splitOn_no_sep hq]
  simp only [List.filterMap_cons, List.filterMap_nil]
  rw [if_neg hne, splitAtFirst_action]

theorem searchParamsGetL_wrapper {X : List Char} (hn : '&' ∉ X) :
    searchParamsGetL ("action=".toList ++ X) "action".toList =
      some (formDecodeL X) := by
  rw [searchParamsGetL, spPairs_wrapper hn]
  rfl

theorem takeWhile_ne_hash :
    ∀ {l : List Char}, '#' ∉ l → (l.takeWhile fun c => c ≠ '#') = l := by
  intro l
  induction l with
  | nil => intro _; rfl
  | cons c r ih =>
    intro h
    have hc : (decide ¬c = '#') = true := by
      simp only [decide_eq_true_eq]
      intro he
      exact h (by simp [he])
    simp only [List.takeWhile_cons, hc, if_true]
    rw [ih fun hr => h (by simp [hr])]

/-- C3 counterexample: `parseBlinkUrl` applies `decodeURIComponent` to the
already-decoded `action` query value, so the round trip through
`createBlinkUrl` is lossy on the well-formed absolute URL
`https://example.com/a%2Bb`, which comes back as `https://example.com/a+b`. -/
theorem c3_blink_roundtrip_counterexample :
    urlParseOkL "https://example.com/a%2Bb".toList = true ∧
    blinkRoundTrip "https://example.com/a%2Bb" =
      some "https://example.com/a+b" ∧
    blinkRoundTrip "https://example.com/a%2Bb" ≠
      some "https://example.com/a%2Bb" := by
  refine ⟨by decide, ?_, ?_⟩
  · decide
  · decide

/-- C3: the claim that `parseBlinkUrl (createBlinkUrl u) = u` for every
well-formed absolute URL `u` fails in general (the `action` value is
percent-decoded twice), but the round trip is lossless on every well-formed
URL made of ASCII characters that contains no `%`: such a URL survives the
second, spurious `decodeURIComponent` unchanged. -/
theorem c3_blink_roundtrip_amended (u : String)
    (ha : ∀ c ∈ u.toList, c.toNat < 128) (hp : '%' ∉ u.toList)
    (hok : urlParseOkL u.toList = true) :
    blinkRoundTrip u = some u := by
  have hamp : '&' ∉ encodeURIComponentL u.toList :=
    enc_no_meta (Or.inr (Or.inl rfl))
  have hhash : '#' ∉ "action=".toList ++ encodeURIComponentL u.toList := by
    intro h
    rcases List.mem_append.mp h with h | h
    · revert h; decide
    · exact enc_no_meta (Or.inl rfl) h
  have henc : (BLINK_BASE_URL ++ "/blink?" ++ ACTION_QUERY_PARAM ++ "=" ++
      encodeURIComponent u).toList =
      "https://blink.mantle.xyz/blink?action=".toList ++
        encodeURIComponentL u.toList := by
    simp only [toList_append]
    rw [show (encodeURIComponent u).toList = encodeURIComponentL u.toList
      from rfl]
    rw [show BLINK_BASE_URL.toList ++ "/blink?".toList ++
      ACTION_QUERY_PARAM.toList ++ "=".toList =
      "https://blink.mantle.xyz/blink?action=".toList from by decide]
  rw [blinkRoundTrip, createBlinkUrl, if_pos hok]
  show parseBlinkUrl (BLINK_BASE_URL ++ "/blink?" ++ ACTION_QUERY_PARAM ++
    "=" ++ encodeURIComponent u) = some u
  rw [parseBlinkUrl, henc, urlParseOkL_wrapper, if_pos rfl, ACTION_QUERY_PARAM,
    queryOfL_wrapper, takeWhile_ne_hash hhash, searchParamsGetL_wrapper hamp,
    formDecodeL_encodeURIComponentL ha]
  have hne : ¬(u.toList = []) := by
    intro h
    rw [h] at hok
    exact absurd hok (by decide)
  show (if u.toList = [] then none
    else match decodeURIComponentL u.toList with
      | none => none
      | some au => if urlParseOkL au then some (⟨au⟩ : String) else none) =
    some u
  rw [if_neg hne, decodeURIComponentL_no_pct ha hp]
  show (if urlParseOkL u.toList then some (⟨u.toList⟩ : String) else none) =
    some u
  rw [hok, if_pos rfl]
  rfl

theorem c3_blink_roundtrip_amended_witness :
    blinkRoundTrip "https://example.com/path" =
      some "https://example.com/path" :=
  c3_blink_roundtrip_amended "https://example.com/path" (by decide) (by decide)
    (by decide)

end Mlink
